import Mathlib

/-
  Verification development for the OvenMediaUI configuration-management core.

  The Python services under src/services and src/api and the snapshot model
  under src/models are embedded shallowly:

  * Python dictionaries produced by the XML codec (xmltodict) become the
    inductive type XVal (None / str / dict / list).
  * XML documents are embedded at the level of parse trees (XNode): the
    lexical layer (expat / lxml), which the repository delegates to its XML
    libraries, is represented by the type XmlText, whose value is either a
    well-formed single-rooted parse tree or an opaque malformed text.  The
    pretty-printing indentation inserted by serialization lives purely in the
    lexical layer and is stripped again by the whitespace stripping of the
    parser, so it does not appear at this level.
  * The filesystem is an association list from paths to XmlText, and the
    snapshot table is a list of Snapshot records.
-/

namespace OvenMediaUI

/-! ## Python string primitives, modelled over the character lists of strings -/

/-- Characters stripped by the Python str.strip() used by the codec
(space, tab, newline, carriage return, vertical tab, form feed). -/
def pyIsSpace (c : Char) : Bool :=
  c = ' ' || c = '\t' || c = '\n' || c = '\r' || c = '\x0b' || c = '\x0c'

/-- Strip leading and trailing Python whitespace from a character list. -/
def pyStripList (l : List Char) : List Char :=
  ((l.dropWhile pyIsSpace).reverse.dropWhile pyIsSpace).reverse

/-- Python str.strip() with no arguments. -/
def pyStrip (s : String) : String :=
  String.mk (pyStripList s.data)

/-- Python s.startswith("@"), the attribute-key test of the codec. -/
def strHasAtSign (s : String) : Bool :=
  match s.data with
  | '@' :: _ => true
  | _ => false

/-- Python s[1:], used to strip the attribute marker from a dict key. -/
def strDrop1 (s : String) : String :=
  String.mk s.data.tail

/-- Contiguous-substring test on character lists (Python str membership:
needle in haystack). -/
def listHasSub (needle : List Char) : List Char → Bool
  | [] => needle.isEmpty
  | c :: rest => needle.isPrefixOf (c :: rest) || listHasSub needle rest

/-- Python substring containment: needle in haystack for str values. -/
def strHasSub (needle haystack : String) : Bool :=
  listHasSub needle.data haystack.data

/-- First character of an XML name (letter or underscore; namespaces are out
of scope, so the colon is excluded). -/
def xmlNameStartOk (c : Char) : Bool :=
  c.isAlpha || c = '_'

/-- Subsequent character of an XML name. -/
def xmlNameCharOk (c : Char) : Bool :=
  c.isAlpha || c.isDigit || c = '_' || c = '-' || c = '.'

/-- Well-formedness of an XML element or attribute name, the check that the
lexical XML layer (expat on parse, lxml on validate_xml) enforces.  A name
accepted here never starts with the @ attribute marker and is never the
reserved #text key of the codec. -/
def xmlNameOk (s : String) : Bool :=
  match s.data with
  | [] => false
  | c :: rest => xmlNameStartOk c && rest.all xmlNameCharOk

/-! ## Data model: Python values and XML parse trees -/

/-- Python values handled by the codec: None, strings, dicts (ordered
key-value lists, as Python dicts preserve insertion order) and lists. -/
inductive XVal where
  | null
  | text (s : String)
  | obj (es : List (String × XVal))
  | arr (vs : List XVal)

/-- Nodes of an XML parse tree: character data or an element with a tag,
attributes in document order, and children in document order. -/
inductive XNode where
  | text (s : String)
  | elem (tag : String) (attrs : List (String × String)) (children : List XNode)

/-- Serialized XML text, at parse-tree granularity: either a well-formed
document with a single root element, or text that is not a well-formed
single-rooted document (malformed markup, or the root-less output that
unparse produces for an empty-list root). -/
inductive XmlText where
  | doc (tag : String) (attrs : List (String × String)) (children : List XNode)
  | raw (s : String)

/-- Membership of a key among the first components of an entry list. -/
def keyMem (k : String) : List (String × XVal) → Bool
  | [] => false
  | (k', _) :: rest => k' = k || keyMem k rest

/-- Value lookup in a Python dict (entry list), first match. -/
def lookupKey (k : String) : List (String × XVal) → Option XVal
  | [] => none
  | (k', v) :: rest => if k' = k then some v else lookupKey k rest

/-! ## Codec, parse direction (xmltodict.parse semantics on parse trees)

The dict-building push_data of the codec: a first occurrence of a key is
stored as a scalar, a second occurrence turns the entry into a two-element
list in place, and further occurrences append to that list. -/

/-- push_data of the codec dict builder. -/
def pushData (item : List (String × XVal)) (key : String) (v : XVal) :
    List (String × XVal) :=
  match item with
  | [] => [(key, v)]
  | (k, w) :: rest =>
    if k = key then
      match w with
      | XVal.arr ws => (k, XVal.arr (ws ++ [v])) :: rest
      | _ => (k, XVal.arr [w, v]) :: rest
    else (k, w) :: pushData rest key v

mutual
/-- Value of one XML element under the codec parse: attributes become
@-prefixed text entries, element children are grouped with pushData, the
concatenated character data is stripped and, when an entry dict exists,
pushed last under the #text key; an element with neither attributes nor
element children collapses to None or to its stripped text. -/
def elemVal : XNode → XVal
  | XNode.text s => XVal.text s
  | XNode.elem _ attrs children =>
    match runChildren (attrs.map (fun p => ("@" ++ p.1, XVal.text p.2))) "" children with
    | (item, data) =>
      let d := pyStrip data
      if item.isEmpty then
        if d = "" then XVal.null else XVal.text d
      else
        if d = "" then XVal.obj item else XVal.obj (pushData item "#text" (XVal.text d))

/-- Left fold of the codec dict builder over the children of an element:
text nodes accumulate character data, element children are pushed by tag. -/
def runChildren (item : List (String × XVal)) (data : String) :
    List XNode → List (String × XVal) × String
  | [] => (item, data)
  | n :: rest =>
    match n with
    | XNode.text s => runChildren item (data ++ s) rest
    | XNode.elem t _ _ => runChildren (pushData item t (elemVal n)) data rest
end

mutual
/-- Well-formedness of a parse-tree node as the lexical XML layer guarantees
it: valid element name, valid and pairwise distinct attribute names. -/
def nodeOk : XNode → Bool
  | XNode.text _ => true
  | XNode.elem t attrs children =>
    xmlNameOk t && attrsOk attrs && nodesOk children

/-- Well-formedness of an attribute list: valid, pairwise distinct names. -/
def attrsOk : List (String × String) → Bool
  | [] => true
  | (k, _) :: rest => xmlNameOk k && rest.all (fun p => p.1 ≠ k) && attrsOk rest

/-- Well-formedness of a child list. -/
def nodesOk : List XNode → Bool
  | [] => true
  | n :: rest => nodeOk n && nodesOk rest
end

/-- XMLParser.parse_string: parse XML text into a dict {root tag: root value};
malformed text raises ValueError, modelled as the error case.  A document
whose names the lexical layer rejects is malformed text. -/
def parse_string : XmlText → Except String XVal
  | XmlText.doc t a c =>
    if nodeOk (XNode.elem t a c) then
      Except.ok (XVal.obj [(t, elemVal (XNode.elem t a c))])
    else
      Except.error "Error parsing XML string: malformed document"
  | XmlText.raw _ => Except.error "Error parsing XML string: malformed document"

/-! ## Codec, serialize direction (xmltodict.unparse semantics to parse trees)

The emitter walks a dict in entry order: the #text entry becomes trailing
character data, @-prefixed entries become attributes (dict-style assignment:
a repeated name overwrites in place), every other entry becomes one child
element, or one element per item for a list value.  Value shapes on which
the library would fall back to the Python str() representation (a list
nested directly in a list, a non-string attribute or #text value) are not
producible by the parser and are modelled as the none case. -/

/-- Python dict assignment on an attribute list: overwrite in place if the
name exists, append otherwise. -/
def updateAssoc (attrs : List (String × String)) (k v : String) :
    List (String × String) :=
  match attrs with
  | [] => [(k, v)]
  | (k', v') :: rest =>
    if k' = k then (k', v) :: rest else (k', v') :: updateAssoc rest k v

mutual
/-- Emit one element for a dict key and one non-list value. -/
def emitOne (key : String) (v : XVal) : Option XNode :=
  match v with
  | XVal.null => some (XNode.elem key [] [])
  | XVal.text s =>
    some (XNode.elem key [] (if s = "" then [] else [XNode.text s]))
  | XVal.obj es => emitObj key [] [] none es
  | XVal.arr _ => none
termination_by structural v

/-- Walk the entries of a dict value, accumulating attributes, emitted child
elements and the #text value, then build the element with the character
data written after all children. -/
def emitObj (key : String) (attrs : List (String × String))
    (children : List XNode) (cdata : Option XVal)
    (es : List (String × XVal)) : Option XNode :=
  match es with
  | [] =>
    match cdata with
    | none => some (XNode.elem key attrs children)
    | some (XVal.text c) =>
      some (XNode.elem key attrs
        (children ++ (if c = "" then [] else [XNode.text c])))
    | some _ => none
  | (k, v) :: rest =>
    if k = "#text" then emitObj key attrs children (some v) rest
    else if strHasAtSign k then
      match v with
      | XVal.text s => emitObj key (updateAssoc attrs (strDrop1 k) s) children cdata rest
      | _ => none
    else
      match v with
      | XVal.null => emitObj key attrs (children ++ [XNode.elem k [] []]) cdata rest
      | XVal.text s =>
        emitObj key attrs
          (children ++ [XNode.elem k [] (if s = "" then [] else [XNode.text s])])
          cdata rest
      | XVal.obj ses =>
        match emitObj k [] [] none ses with
        | some n => emitObj key attrs (children ++ [n]) cdata rest
        | none => none
      | XVal.arr vs =>
        match emitList k vs with
        | some ns => emitObj key attrs (children ++ ns) cdata rest
        | none => none
termination_by structural es

/-- Emit one element per item of a list value, all under the same key. -/
def emitList (key : String) (vs : List XVal) : Option (List XNode) :=
  match vs with
  | [] => some []
  | v :: rest =>
    match emitOne key v with
    | some n =>
      match emitList key rest with
      | some ns => some (n :: ns)
      | none => none
    | none => none
termination_by structural vs
end

/-- XMLParser.dict_to_xml: serialize a dict to XML text.  The input must be a
dict with exactly one root entry; a list-valued root raises for more than one
item, and an empty-list root serializes to a document with no root element
(well-formed markup is not checked by the emitter). -/
def dict_to_xml (data : XVal) : Except String XmlText :=
  match data with
  | XVal.obj [(k, v)] =>
    match v with
    | XVal.arr [] => Except.ok (XmlText.raw "")
    | XVal.arr [w] =>
      match emitOne k w with
      | some (XNode.elem t a c) => Except.ok (XmlText.doc t a c)
      | _ => Except.error "Error converting dict to XML: unsupported value"
    | XVal.arr _ =>
      Except.error "Error converting dict to XML: document with multiple roots"
    | _ =>
      match emitOne k v with
      | some (XNode.elem t a c) => Except.ok (XmlText.doc t a c)
      | _ => Except.error "Error converting dict to XML: unsupported value"
  | XVal.obj _ =>
    Except.error "Error converting dict to XML: Document must have exactly one root."
  | _ => Except.error "Error converting dict to XML: not a dictionary"

/-- XMLParser.validate_xml: syntax-only check of serialized text (lxml
etree.fromstring), true exactly for well-formed single-rooted documents. -/
def validate_xml : XmlText → Bool × Option String
  | XmlText.doc t a c =>
    if nodeOk (XNode.elem t a c) then (true, none)
    else (false, some "XML syntax error")
  | XmlText.raw _ => (false, some "XML syntax error")

/-! ## Python operations used by the services

Raising Python operations are modelled in Except String: an error value is a
raised exception (TypeError, AttributeError, KeyError), to be caught or
propagated exactly where the source does. -/

/-- Python membership test: key membership for dicts, substring for strings,
element equality for lists; None is not a container and raises. -/
def pyIn (needle : String) : XVal → Except String Bool
  | XVal.obj es => Except.ok (keyMem needle es)
  | XVal.text s => Except.ok (strHasSub needle s)
  | XVal.arr vs =>
    Except.ok (vs.any (fun v => match v with
      | XVal.text t => t = needle
      | _ => false))
  | XVal.null => Except.error "TypeError: argument of type NoneType is not iterable"

/-- Python d[k] subscription: dict key access (KeyError when missing); any
non-dict value raises for a string subscript. -/
def pyGetItem (v : XVal) (k : String) : Except String XVal :=
  match v with
  | XVal.obj es =>
    match lookupKey k es with
    | some w => Except.ok w
    | none => Except.error ("KeyError: " ++ k)
  | _ => Except.error "TypeError: value is not subscriptable by string"

/-- Python d.get(k, default): only dicts have the get method. -/
def pyGet (v : XVal) (k : String) (dflt : XVal) : Except String XVal :=
  match v with
  | XVal.obj es => Except.ok ((lookupKey k es).getD dflt)
  | _ => Except.error "AttributeError: value has no attribute get"

/-- Python d.get(k) with no default (None when missing). -/
def pyGetOpt (v : XVal) (k : String) : Except String XVal :=
  pyGet v k XVal.null

/-- Python len(): length for strings, dicts and lists; None raises. -/
def pyLen : XVal → Except String Nat
  | XVal.text s => Except.ok s.data.length
  | XVal.obj es => Except.ok es.length
  | XVal.arr vs => Except.ok vs.length
  | XVal.null => Except.error "TypeError: object of type NoneType has no len"

/-- Python equality between a parsed value and a string literal: only a str
compares equal to a str. -/
def pyEqStr (v : XVal) (s : String) : Bool :=
  match v with
  | XVal.text t => t = s
  | _ => false

/-- Python path.split for a dot-separated path. -/
def splitDots (s : String) : List String :=
  (s.data.splitOn '.').map String.mk

/-! ## ConfigManager and XMLParser service functions -/

/-- ConfigManager.validate_config: serialize the dict, syntax-validate the
result, then check the Server root entry, its version attribute and its Bind
section with Python membership tests; every raised exception is caught and
reported as a false result, so the function always returns a pair. -/
def validate_config (config : XVal) : Bool × Option String :=
  match dict_to_xml config with
  | Except.error e => (false, some ("Validation error: " ++ e))
  | Except.ok xmlText =>
    match validate_xml xmlText with
    | (false, err) => (false, some ("XML validation error: " ++ (err.getD "")))
    | (true, _) =>
      match pyIn "Server" config with
      | Except.error e => (false, some ("Validation error: " ++ e))
      | Except.ok false => (false, some "Missing required Server root element")
      | Except.ok true =>
        match pyGetItem config "Server" with
        | Except.error e => (false, some ("Validation error: " ++ e))
        | Except.ok server =>
          match pyIn "@version" server with
          | Except.error e => (false, some ("Validation error: " ++ e))
          | Except.ok false => (false, some "Missing server version attribute")
          | Except.ok true =>
            match pyIn "Bind" server with
            | Except.error e => (false, some ("Validation error: " ++ e))
            | Except.ok false => (false, some "Missing Bind section in configuration")
            | Except.ok true => (true, none)

/-- XMLParser.get_nested_value: walk a dot-separated path through nested
dicts, returning the default as soon as a segment is missing or the current
value is not a dict; never raises. -/
def get_nested_value (data : XVal) (path : String) (dflt : XVal) : XVal :=
  goKeys (splitDots path) data
where
  goKeys : List String → XVal → XVal
    | [], v => v
    | k :: rest, v =>
      match v with
      | XVal.obj es =>
        match lookupKey k es with
        | some w => goKeys rest w
        | none => dflt
      | _ => dflt

/-- Summary record returned by XMLParser.extract_server_info. -/
structure ServerInfo where
  version : XVal
  name : XVal
  ip : XVal
  stun_server : XVal
  bind : XVal
  virtual_hosts_count : Nat

/-- XMLParser.extract_server_info: pull the well-known display fields out of
the parsed configuration; the virtual-host count is the Python len() of
whatever sits under Server.VirtualHosts.VirtualHost (empty list when the
key chain is absent). -/
def extract_server_info (config : XVal) : Except String ServerInfo := do
  let server ← pyGet config "Server" (XVal.obj [])
  let version ← pyGet server "@version" (XVal.text "unknown")
  let name ← pyGet server "Name" (XVal.text "OvenMediaEngine")
  let vhsSection ← pyGet server "VirtualHosts" (XVal.obj [])
  let vhosts ← pyGet vhsSection "VirtualHost" (XVal.arr [])
  let count ← pyLen vhosts
  pure {
    version := version
    name := name
    ip := get_nested_value server "IP" (XVal.text "*")
    stun_server := get_nested_value server "StunServer" XVal.null
    bind := (← pyGet server "Bind" (XVal.obj []))
    virtual_hosts_count := count }

/-- ConfigManager.get_virtual_hosts on a parsed configuration: read
Server.VirtualHosts.VirtualHost with defaulting gets, then wrap a dict
(the single-item representation of the codec) in a one-element list. -/
def get_virtual_hosts_of (config : XVal) : Except String XVal := do
  let server ← pyGet config "Server" (XVal.obj [])
  let vhsSection ← pyGet server "VirtualHosts" (XVal.obj [])
  let vhosts ← pyGet vhsSection "VirtualHost" (XVal.arr [])
  pure (match vhosts with
    | XVal.obj es => XVal.arr [XVal.obj es]
    | v => v)

/-- Whether a value is a dict carrying the given key; a non-dict value never
carries an attribute or a section. -/
def objHasKey (v : XVal) (k : String) : Bool :=
  match v with
  | XVal.obj es => keyMem k es
  | _ => false

/-! ## Filesystem model -/

/-- The filesystem: an association list from paths to file contents. -/
def Fs := List (String × XmlText)

/-- Filesystem events of interest: the backup copy and the live write. -/
inductive FsEvent where
  | copy (src dst : String)
  | write (path : String)

/-- Read a file (os.path.exists / open for reading). -/
def fsGet (fs : Fs) (path : String) : Option XmlText :=
  match fs with
  | [] => none
  | (p, t) :: rest => if p = path then some t else fsGet rest path

/-- Write a file, replacing existing content at the path. -/
def fsSet (fs : Fs) (path : String) (txt : XmlText) : Fs :=
  match fs with
  | [] => [(path, txt)]
  | (p, t) :: rest =>
    if p = path then (p, txt) :: rest else (p, t) :: fsSet rest path txt

/-- Result of a ConfigManager operation touching the filesystem: the raised
exception if any, the filesystem afterwards, and the filesystem events that
were performed, in order. -/
structure OpResult where
  err : Option String
  fs : Fs
  events : List FsEvent

/-! ## ConfigManager file operations -/

/-- ConfigManager.read_config via XMLParser.parse_file: missing file raises
FileNotFoundError, malformed content raises ValueError. -/
def read_config (fs : Fs) (path : String) : Except String XVal :=
  match fsGet fs path with
  | none => Except.error ("Configuration file not found: " ++ path)
  | some txt =>
    match parse_string txt with
    | Except.ok v => Except.ok v
    | Except.error e => Except.error ("Error parsing XML file: " ++ e)

/-- ConfigManager.get_virtual_hosts: read the live configuration and coerce
the virtual-host entry to a list (the codec returns a dict for a single
item). -/
def get_virtual_hosts (fs : Fs) (path : String) : Except String XVal := do
  let config ← read_config fs path
  get_virtual_hosts_of config

/-- ConfigManager.write_config: when backup is requested and the live file
exists, first copy it to a timestamped backup path, then serialize the dict
and overwrite the live file; a serialization failure raises after the backup
copy has already happened. -/
def write_config (fs : Fs) (path : String) (config : XVal) (backup : Bool)
    (ts : String) : OpResult :=
  let bpath := path ++ ".backup." ++ ts
  let step :=
    if backup && (fsGet fs path).isSome then
      (fsSet fs bpath ((fsGet fs path).getD (XmlText.raw "")),
       [FsEvent.copy path bpath])
    else (fs, [])
  match dict_to_xml config with
  | Except.error e =>
    { err := some ("Error writing XML file: " ++ e)
      fs := step.1
      events := step.2 }
  | Except.ok txt =>
    { err := none
      fs := fsSet step.1 path txt
      events := step.2 ++ [FsEvent.write path] }

/-- ConfigManager.restore_from_snapshot: parse the stored document, run full
validation, raise ValueError without touching the filesystem when invalid,
and otherwise write with backup enabled. -/
def restore_from_snapshot (fs : Fs) (path : String) (snapshotText : XmlText)
    (ts : String) : OpResult :=
  match parse_string snapshotText with
  | Except.error e => { err := some e, fs := fs, events := [] }
  | Except.ok config =>
    match validate_config config with
    | (false, msg) =>
      { err := some ("Invalid configuration: " ++ msg.getD "None")
        fs := fs
        events := [] }
    | (true, _) => write_config fs path config true ts

/-- Python dict item assignment, keeping the position of an existing key. -/
def setKey (es : List (String × XVal)) (k : String) (v : XVal) :
    List (String × XVal) :=
  match es with
  | [] => [(k, v)]
  | (k', w) :: rest =>
    if k' = k then (k', v) :: rest else (k', w) :: setKey rest k v

/-- Nested dict item assignment config[Server][VirtualHosts][VirtualHost],
raising for missing keys or non-dict intermediate values. -/
def setVHEntry (config : XVal) (entry : XVal) : Except String XVal :=
  match config with
  | XVal.obj ces =>
    match lookupKey "Server" ces with
    | some (XVal.obj ses) =>
      match lookupKey "VirtualHosts" ses with
      | some (XVal.obj ves) =>
        Except.ok (XVal.obj (setKey ces "Server"
          (XVal.obj (setKey ses "VirtualHosts"
            (XVal.obj (setKey ves "VirtualHost" entry))))))
      | some _ => Except.error "TypeError: item assignment"
      | none => Except.error "KeyError: VirtualHosts"
    | some _ => Except.error "TypeError: item assignment"
    | none => Except.error "KeyError: Server"
  | _ => Except.error "TypeError: item assignment"

/-- ConfigManager.update_virtual_host: read the configuration, coerce the
virtual-host entry to a list, replace the entry whose Name equals the target
(first match), write back in list form exactly when the original entry was a
list, and write the configuration with backup; a missing name returns false
without writing. -/
def update_virtual_host (fs : Fs) (path : String) (vhost_name : String)
    (vhost_config : XVal) (ts : String) : Except String (Bool × OpResult) := do
  let config ← read_config fs path
  let server ← pyGet config "Server" (XVal.obj [])
  let vhsSection ← pyGet server "VirtualHosts" (XVal.obj [])
  let vhosts0 ← pyGet vhsSection "VirtualHost" (XVal.arr [])
  let vhosts :=
    match vhosts0 with
    | XVal.obj es => [XVal.obj es]
    | XVal.arr vs => vs
    | v => [v]
  let updated ← replaceByName vhosts
  match updated with
  | none => pure (false, { err := none, fs := fs, events := [] })
  | some newList => do
    let serverRaw ← pyGetItem config "Server"
    let vhsRaw ← pyGetItem serverRaw "VirtualHosts"
    let origRaw ← pyGetItem vhsRaw "VirtualHost"
    let newEntry :=
      match origRaw with
      | XVal.arr _ => XVal.arr newList
      | _ => newList.headD XVal.null
    let config' ← setVHEntry config newEntry
    let r := write_config fs path config' true ts
    match r.err with
    | some e => throw e
    | none => pure (true, r)
where
  /-- The linear scan: replace the first list item whose Name equals the
  target with the new configuration; a non-dict item raises on .get. -/
  replaceByName : List XVal → Except String (Option (List XVal))
    | [] => pure none
    | v :: rest => do
      let nameVal ← pyGetOpt v "Name"
      if pyEqStr nameVal vhost_name then
        pure (some (vhost_config :: rest))
      else do
        let r ← replaceByName rest
        pure (r.map (fun l => v :: l))

/-! ## Snapshot store (models/configuration.py) -/

/-- ConfigurationSnapshot: a persisted row of the snapshot table. -/
structure Snapshot where
  id : Nat
  version : Nat
  description : String
  configuration_type : String
  configuration_data : XmlText
  user_id : Nat
  is_active : Bool

/-- ConfigurationSnapshot.get_latest_version: the greatest stored version
number, 0 when the table is empty. -/
def get_latest_version (store : List Snapshot) : Nat :=
  (store.map (fun s => s.version)).foldr Nat.max 0

/-- ConfigurationSnapshot.activate: deactivate every active snapshot, then
set the chosen snapshot active, in one committed step. -/
def activate (store : List Snapshot) (sid : Nat) : List Snapshot :=
  (store.map (fun s => if s.is_active then { s with is_active := false } else s)).map
    (fun s => if s.id = sid then { s with is_active := true } else s)

/-! ## Remote control-plane client (services/ome_client.py) -/

/-- Outcome of one HTTP exchange as seen by the transport library: either a
response with a status code and body text, or a transport-level failure
(connection error, timeout), which the library raises as a request
exception. -/
inductive TransportOutcome where
  | response (status : Nat) (body : String)
  | failure (msg : String)

/-- A response object returned to the caller of the client. -/
structure HttpResponse where
  status : Nat
  body : String

/-- OMEClient._request: raise_for_status turns a 4xx or 5xx response into an
HTTPError, which the client catches and re-raises as OMEAPIException with
the status and body text; every transport failure is caught and re-raised as
OMEAPIException with a connection-error message.  The single error string
type is the OMEAPIException; no other exception escapes. -/
def request_outcome (o : TransportOutcome) : Except String HttpResponse :=
  match o with
  | TransportOutcome.failure m =>
    Except.error ("Connection error: " ++ m)
  | TransportOutcome.response s b =>
    if 400 ≤ s ∧ s < 600 then
      Except.error ("HTTP " ++ toString s ++ ": " ++ b)
    else
      Except.ok { status := s, body := b }

/-! ## Server configuration routes (api/server.py) -/

/-- Response of the PUT /config route. -/
inductive UpdateResp where
  | badRequest (msg : String)
  | serverError (msg : String)
  | success (snapshot_version : Nat)

/-- State shared by the configuration routes: the live filesystem and the
snapshot table. -/
structure SrvState where
  fs : Fs
  store : List Snapshot

/-- update_config (PUT /config): validate the submitted XML, read the current
live file, stage a snapshot of the pre-write content with version
latest_version + 1 in the database session, write the new configuration to
the live file, and only then commit the session; any exception (including a
failed live write, modelled by the writeFails flag) rolls the session back,
so the staged snapshot is discarded.  A failed write is modelled as leaving
the live file unchanged (a real partial write could also corrupt it). -/
def update_config (st : SrvState) (path : String) (newXml : XmlText)
    (desc : String) (uid : Nat) (nextId : Nat) (writeFails : Bool) :
    UpdateResp × SrvState :=
  match validate_xml newXml with
  | (false, err) => (UpdateResp.badRequest ("Invalid XML: " ++ err.getD ""), st)
  | (true, _) =>
    match fsGet st.fs path with
    | none =>
      (UpdateResp.serverError "FileNotFoundError", st)
    | some oldXml =>
      let version := get_latest_version st.store + 1
      let snapshot : Snapshot :=
        { id := nextId
          version := version
          description := desc
          configuration_type := "server_xml"
          configuration_data := oldXml
          user_id := uid
          is_active := false }
      if writeFails then
        (UpdateResp.serverError "IOError", st)
      else
        (UpdateResp.success version,
         { fs := fsSet st.fs path newXml
           store := st.store ++ [snapshot] })

/-- Number of active snapshots in the table. -/
def activeCount (store : List Snapshot) : Nat :=
  store.countP (fun s => s.is_active)

/-- Sequential configuration updates through the PUT /config route, one
snapshot per write. -/
def run_updates (st : SrvState) (path : String) : List XmlText → SrvState
  | [] => st
  | x :: rest => run_updates (update_config st path x "" 0 0 false).2 path rest

/-- Response of the POST /snapshots/id/restore route. -/
inductive RestoreResp where
  | notFound
  | serverError (msg : String)
  | success (version : Nat)

/-- restore_snapshot (POST /snapshots/id/restore): look the snapshot up by
primary key, restore its stored document through the ConfigManager, and only
on success activate it in the store. -/
def restore_snapshot_route (st : SrvState) (path : String) (sid : Nat)
    (ts : String) : RestoreResp × SrvState :=
  match st.store.find? (fun s => s.id = sid) with
  | none => (RestoreResp.notFound, st)
  | some snap =>
    let r := restore_from_snapshot st.fs path snap.configuration_data ts
    match r.err with
    | some e => (RestoreResp.serverError e, { st with fs := r.fs })
    | none =>
      (RestoreResp.success snap.version,
       { fs := r.fs, store := activate st.store sid })

/-! ## Basic lemmas -/

theorem fsGet_fsSet_same (fs : Fs) (p : String) (t : XmlText) :
    fsGet (fsSet fs p t) p = some t := by
  induction fs with
  | nil => simp [fsGet, fsSet]
  | cons hd tl ih =>
    obtain ⟨q, u⟩ := hd
    by_cases h : q = p <;> simp [fsGet, fsSet, h, ih]

theorem fsGet_fsSet_ne (fs : Fs) (p q : String) (t : XmlText) (h : p ≠ q) :
    fsGet (fsSet fs p t) q = fsGet fs q := by
  induction fs with
  | nil => simp [fsGet, fsSet, h]
  | cons hd tl ih =>
    obtain ⟨r, u⟩ := hd
    by_cases hr : r = p
    · subst hr
      simp [fsGet, fsSet, h]
    · simp [fsGet, fsSet, hr, ih]

theorem fsGet_fsSet_isSome (fs : Fs) (p q : String) (t : XmlText) :
    (fsGet (fsSet fs p t) q).isSome = true ∨ fsGet (fsSet fs p t) q = fsGet fs q := by
  by_cases h : p = q
  · subst h
    left
    simp [fsGet_fsSet_same]
  · right
    exact fsGet_fsSet_ne fs p q t h

theorem string_data_append (s t : String) : (s ++ t).data = s.data ++ t.data :=
  String.data_append s t

theorem string_append_ne (p q : String) (h : q.data ≠ []) : p ++ q ≠ p := by
  intro he
  have hd : (p ++ q).data = p.data := by rw [he]
  rw [string_data_append] at hd
  have hl := congrArg List.length hd
  simp [List.length_append] at hl
  exact h (List.length_eq_zero.mp hl)

theorem backup_path_ne (path ts : String) : path ++ ".backup." ++ ts ≠ path := by
  have h : (".backup." ++ ts).data ≠ [] := by
    rw [string_data_append]
    intro he
    have := congrArg List.length he
    simp [List.length_append] at this
  have := string_append_ne path (".backup." ++ ts) h
  simpa [String.append_assoc] using this

/-! ## C8: remote error normalization -/

/-- Claim C8, as stated, is false: raise_for_status raises only for 4xx and
5xx statuses, so a non-2xx response such as 304 is returned to the caller as
a plain response, not as an OMEAPIException. -/
theorem c8_counterexample :
    request_outcome (TransportOutcome.response 304 "Not Modified") =
      Except.ok { status := 304, body := "Not Modified" } ∧
    ¬ (200 ≤ 304 ∧ 304 < 300) := by
  constructor
  · rfl
  · decide

/-- Claim C8 amended: every transport failure and every 4xx or 5xx response
of a client request surfaces as the single OMEAPIException error, carrying
the status code and body text; statuses outside 400..599 (including every
2xx) return the response to the caller, and no other exception kind exists
on this path. -/
theorem c8_remote_error_normalization (s : Nat) (b m : String) :
    request_outcome (TransportOutcome.failure m) =
      Except.error ("Connection error: " ++ m) ∧
    (400 ≤ s ∧ s < 600 →
      request_outcome (TransportOutcome.response s b) =
        Except.error ("HTTP " ++ toString s ++ ": " ++ b)) ∧
    (¬ (400 ≤ s ∧ s < 600) →
      request_outcome (TransportOutcome.response s b) =
        Except.ok { status := s, body := b }) := by
  refine ⟨rfl, ?_, ?_⟩
  · intro h
    simp [request_outcome, h]
  · intro h
    simp [request_outcome, h]

theorem c8_remote_error_normalization_witness :
    request_outcome (TransportOutcome.response 404 "not found") =
      Except.error ("HTTP " ++ toString 404 ++ ": " ++ "not found") :=
  (c8_remote_error_normalization 404 "not found" "x").2.1 (by decide)

/-! ## C10: virtual-host count in extract_server_info -/

/-- Claim C10: when the entry under Server.VirtualHosts.VirtualHost is a
single dict (the singular representation of one virtual host), the reported
virtual_hosts_count is the Python len() of that dict, i.e. its number of
keys, not 1; the count is the number of virtual hosts exactly when the entry
is already a list, and it is 0 when the section is absent. -/
theorem c10_virtual_hosts_count (ces ses : List (String × XVal))
    (hs : lookupKey "Server" ces = some (XVal.obj ses)) :
    (∀ ves m, lookupKey "VirtualHosts" ses = some (XVal.obj ves) →
      lookupKey "VirtualHost" ves = some (XVal.obj m) →
      (extract_server_info (XVal.obj ces)).map (fun i => i.virtual_hosts_count) =
        Except.ok m.length) ∧
    (∀ ves vs, lookupKey "VirtualHosts" ses = some (XVal.obj ves) →
      lookupKey "VirtualHost" ves = some (XVal.arr vs) →
      (extract_server_info (XVal.obj ces)).map (fun i => i.virtual_hosts_count) =
        Except.ok vs.length) ∧
    (lookupKey "VirtualHosts" ses = none →
      (extract_server_info (XVal.obj ces)).map (fun i => i.virtual_hosts_count) =
        Except.ok 0) ∧
    (∀ ves, lookupKey "VirtualHosts" ses = some (XVal.obj ves) →
      lookupKey "VirtualHost" ves = none →
      (extract_server_info (XVal.obj ces)).map (fun i => i.virtual_hosts_count) =
        Except.ok 0) := by
  refine ⟨?_, ?_, ?_, ?_⟩
  · intro ves m h1 h2
    simp [extract_server_info, pyGet, pyLen, hs, h1, h2, Except.map,
      Except.bind, bind, Except.pure, pure, Functor.map]
  · intro ves vs h1 h2
    simp [extract_server_info, pyGet, pyLen, hs, h1, h2, Except.map,
      Except.bind, bind, Except.pure, pure, Functor.map]
  · intro h1
    simp [extract_server_info, pyGet, pyLen, hs, h1, Except.map,
      Except.bind, bind, Except.pure, pure, Functor.map, lookupKey]
  · intro ves h1 h2
    simp [extract_server_info, pyGet, pyLen, hs, h1, h2, Except.map,
      Except.bind, bind, Except.pure, pure, Functor.map]

theorem c10_virtual_hosts_count_witness :
    (extract_server_info (XVal.obj [("Server", XVal.obj
        [("VirtualHosts", XVal.obj [("VirtualHost", XVal.obj
          [("Name", XVal.text "default"), ("Host", XVal.null)])])])])).map
      (fun i => i.virtual_hosts_count) = Except.ok 2 :=
  (c10_virtual_hosts_count
    [("Server", XVal.obj [("VirtualHosts", XVal.obj [("VirtualHost", XVal.obj
      [("Name", XVal.text "default"), ("Host", XVal.null)])])])]
    [("VirtualHosts", XVal.obj [("VirtualHost", XVal.obj
      [("Name", XVal.text "default"), ("Host", XVal.null)])])]
    rfl).1
    [("VirtualHost", XVal.obj [("Name", XVal.text "default"), ("Host", XVal.null)])]
    [("Name", XVal.text "default"), ("Host", XVal.null)] rfl rfl

/-! ## C5: backup before overwrite -/

/-- Claim C5: writing with backup while a live file with content a exists
first copies a to the timestamped backup path and then overwrites the live
file with the serialization of the document: afterwards the backup file
holds a, the live file holds the serialized document, and the recorded event
order shows the copy preceding the write. -/
theorem c5_backup_before_overwrite (fs : Fs) (path ts : String) (doc : XVal)
    (a txt : XmlText)
    (h1 : fsGet fs path = some a)
    (h2 : dict_to_xml doc = Except.ok txt) :
    (write_config fs path doc true ts).err = none ∧
    (write_config fs path doc true ts).events =
      [FsEvent.copy path (path ++ ".backup." ++ ts), FsEvent.write path] ∧
    fsGet (write_config fs path doc true ts).fs (path ++ ".backup." ++ ts) = some a ∧
    fsGet (write_config fs path doc true ts).fs path = some txt := by
  have hb := backup_path_ne path ts
  refine ⟨?_, ?_, ?_, ?_⟩ <;>
    simp [write_config, h1, h2, fsGet_fsSet_same,
      fsGet_fsSet_ne _ _ _ _ (fun h => hb h.symm), fsGet_fsSet_ne _ _ _ _ hb]

theorem c5_backup_before_overwrite_witness :
    (write_config [("Server.xml", XmlText.doc "Old" [] [])] "Server.xml"
        (XVal.obj [("New", XVal.null)]) true "20240101_000000").err = none ∧
    fsGet (write_config [("Server.xml", XmlText.doc "Old" [] [])] "Server.xml"
        (XVal.obj [("New", XVal.null)]) true "20240101_000000").fs
      ("Server.xml" ++ ".backup." ++ "20240101_000000") =
        some (XmlText.doc "Old" [] []) := by
  have h := c5_backup_before_overwrite [("Server.xml", XmlText.doc "Old" [] [])]
    "Server.xml" "20240101_000000" (XVal.obj [("New", XVal.null)])
    (XmlText.doc "Old" [] []) (XmlText.doc "New" [] []) rfl rfl
  exact ⟨h.1, h.2.2.1⟩

/-! ## C2: validate before write in restore -/

/-- Claim C2: restoring a snapshot whose parsed document fails validation
raises InvalidConfigurationError, performs no filesystem event, and leaves
the filesystem unchanged; when the document passes validation the restore is
exactly write_config with backup enabled. -/
theorem c2_validate_before_write (fs : Fs) (path ts : String) (snap : XmlText)
    (d : XVal) (hparse : parse_string snap = Except.ok d) :
    (∀ msg, validate_config d = (false, msg) →
      restore_from_snapshot fs path snap ts =
        { err := some ("Invalid configuration: " ++ msg.getD "None"),
          fs := fs, events := [] }) ∧
    ((validate_config d).1 = true →
      restore_from_snapshot fs path snap ts = write_config fs path d true ts) := by
  constructor
  · intro msg hval
    simp [restore_from_snapshot, hparse, hval]
  · intro hval
    rcases hvc : validate_config d with ⟨b, msg⟩
    rw [hvc] at hval
    simp at hval
    subst hval
    simp [restore_from_snapshot, hparse, hvc]

theorem c2_validate_before_write_witness :
    restore_from_snapshot [("Server.xml", XmlText.doc "Live" [] [])] "Server.xml"
      (XmlText.doc "Server" [("version", "8")] [XNode.elem "Name" [] [XNode.text "x"]])
      "ts" =
    { err := some ("Invalid configuration: " ++
        (some "Missing Bind section in configuration").getD "None"),
      fs := [("Server.xml", XmlText.doc "Live" [] [])], events := [] } :=
  (c2_validate_before_write [("Server.xml", XmlText.doc "Live" [] [])] "Server.xml"
    "ts"
    (XmlText.doc "Server" [("version", "8")] [XNode.elem "Name" [] [XNode.text "x"]])
    (XVal.obj [("Server", XVal.obj [("@version", XVal.text "8"),
      ("Name", XVal.text "x")])]) rfl).1
    (some "Missing Bind section in configuration") rfl

/-! ## C1: snapshot persistence versus the live write -/

/-- Claim C1, as stated, is false on the code: update_config stages the
snapshot in the database session before the live write but commits it only
afterwards, and a failed live write rolls the session back; at this concrete
state (live file present, valid replacement document, failing write), the
snapshot table after the operation is empty, so no persisted snapshot holds
the pre-write content. -/
theorem c1_counterexample :
    update_config { fs := [("Server.xml", XmlText.doc "Old" [] [])], store := [] }
        "Server.xml" (XmlText.doc "New" [] []) "d" 1 1 true =
      (UpdateResp.serverError "IOError",
       { fs := [("Server.xml", XmlText.doc "Old" [] [])], store := [] }) ∧
    (update_config { fs := [("Server.xml", XmlText.doc "Old" [] [])], store := [] }
        "Server.xml" (XmlText.doc "New" [] []) "d" 1 1 true).2.store = [] ∧
    fsGet [("Server.xml", XmlText.doc "Old" [] [])] "Server.xml" =
      some (XmlText.doc "Old" [] []) ∧
    (validate_xml (XmlText.doc "New" [] [])).1 = true :=
  ⟨rfl, rfl, rfl, rfl⟩

/-- Claim C1 amended: the snapshot holding the pre-write live content is
created and staged before the live write, but it is persisted (committed)
only after the write succeeds; a successful update appends exactly that
snapshot, with version latest_version + 1, to the table, while a failed live
write rolls the session back, leaving table and filesystem unchanged (so the
pre-write state survives only in the live file, not as a snapshot). -/
theorem c1_snapshot_commit_after_write (st : SrvState) (path : String)
    (newXml : XmlText) (desc : String) (uid nid : Nat) (oldXml : XmlText)
    (hvalid : (validate_xml newXml).1 = true)
    (hfile : fsGet st.fs path = some oldXml) :
    (update_config st path newXml desc uid nid false).2.store =
      st.store ++
        [⟨nid, get_latest_version st.store + 1, desc, "server_xml", oldXml, uid, false⟩] ∧
    (update_config st path newXml desc uid nid false).2.fs =
      fsSet st.fs path newXml ∧
    (update_config st path newXml desc uid nid false).1 =
      UpdateResp.success (get_latest_version st.store + 1) ∧
    update_config st path newXml desc uid nid true =
      (UpdateResp.serverError "IOError", st) := by
  rcases hv : validate_xml newXml with ⟨b, msg⟩
  rw [hv] at hvalid
  simp at hvalid
  subst hvalid
  refine ⟨?_, ?_, ?_, ?_⟩ <;> simp [update_config, hv, hfile]

theorem c1_snapshot_commit_after_write_witness :
    (update_config { fs := [("Server.xml", XmlText.doc "Old" [] [])], store := [] }
        "Server.xml" (XmlText.doc "New" [] []) "d" 1 1 false).2.store =
      [] ++
        [⟨1, get_latest_version [] + 1, "d", "server_xml",
          XmlText.doc "Old" [] [], 1, false⟩] :=
  (c1_snapshot_commit_after_write
    { fs := [("Server.xml", XmlText.doc "Old" [] [])], store := [] }
    "Server.xml" (XmlText.doc "New" [] []) "d" 1 1 (XmlText.doc "Old" [] [])
    rfl rfl).1

/-! ## C9: singular and plural virtual-host representation -/

theorem lookup_setKey_same (es : List (String × XVal)) (k : String) (v : XVal) :
    lookupKey k (setKey es k v) = some v := by
  induction es with
  | nil => simp [setKey, lookupKey]
  | cons hd tl ih =>
    obtain ⟨k', w⟩ := hd
    by_cases h : k' = k <;> simp [setKey, lookupKey, h, ih]

/-- Claim C9: on a configuration whose virtual-host entry is a single dict
(the singular representation), get_virtual_hosts returns the one-element
list wrapping it, and update_virtual_host for its name replaces the entry
with the new configuration in singular form (the written entry is the dict
itself, not a one-element list) and performs the backed-up write of the
updated configuration. -/
theorem c9_singular_coercion (fs : Fs) (path ts name : String) (txt : XmlText)
    (ces ses vses ves : List (String × XVal)) (newCfg : XVal)
    (htxt : fsGet fs path = some txt)
    (hparse : parse_string txt = Except.ok (XVal.obj ces))
    (hserver : lookupKey "Server" ces = some (XVal.obj ses))
    (hvhs : lookupKey "VirtualHosts" ses = some (XVal.obj vses))
    (hvh : lookupKey "VirtualHost" vses = some (XVal.obj ves))
    (hname : lookupKey "Name" ves = some (XVal.text name))
    (hw : (write_config fs path
      (XVal.obj (setKey ces "Server" (XVal.obj (setKey ses "VirtualHosts"
        (XVal.obj (setKey vses "VirtualHost" newCfg)))))) true ts).err = none) :
    get_virtual_hosts fs path = Except.ok (XVal.arr [XVal.obj ves]) ∧
    update_virtual_host fs path name newCfg ts =
      Except.ok (true, write_config fs path
        (XVal.obj (setKey ces "Server" (XVal.obj (setKey ses "VirtualHosts"
          (XVal.obj (setKey vses "VirtualHost" newCfg)))))) true ts) ∧
    lookupKey "VirtualHost" (setKey vses "VirtualHost" newCfg) = some newCfg := by
  refine ⟨?_, ?_, lookup_setKey_same vses "VirtualHost" newCfg⟩
  · simp [get_virtual_hosts, get_virtual_hosts_of, read_config, htxt, hparse,
      pyGet, hserver, hvhs, hvh, Except.bind, bind, Except.pure, pure]
  · rcases hwc : write_config fs path
      (XVal.obj (setKey ces "Server" (XVal.obj (setKey ses "VirtualHosts"
        (XVal.obj (setKey vses "VirtualHost" newCfg)))))) true ts with ⟨err, wfs, wev⟩
    rw [hwc] at hw
    simp at hw
    subst hw
    simp [update_virtual_host, read_config, htxt, hparse, pyGet, pyGetOpt,
      pyGetItem, pyEqStr, hserver, hvhs, hvh, hname, setVHEntry,
      update_virtual_host.replaceByName, hwc,
      Except.bind, bind, Except.pure, pure]

theorem c9_singular_coercion_witness :
    get_virtual_hosts
      [("Server.xml", XmlText.doc "Server" [("version", "8")]
        [XNode.elem "Bind" [] [],
         XNode.elem "VirtualHosts" []
           [XNode.elem "VirtualHost" [] [XNode.elem "Name" [] [XNode.text "default"]]]])]
      "Server.xml" =
      Except.ok (XVal.arr [XVal.obj [("Name", XVal.text "default")]]) ∧
    lookupKey "VirtualHost"
        (setKey [("VirtualHost", XVal.obj [("Name", XVal.text "default")])]
          "VirtualHost" (XVal.obj [("Name", XVal.text "edge")])) =
      some (XVal.obj [("Name", XVal.text "edge")]) := by
  have h := c9_singular_coercion
    [("Server.xml", XmlText.doc "Server" [("version", "8")]
      [XNode.elem "Bind" [] [],
       XNode.elem "VirtualHosts" []
         [XNode.elem "VirtualHost" [] [XNode.elem "Name" [] [XNode.text "default"]]]])]
    "Server.xml" "20240101_000000" "default"
    (XmlText.doc "Server" [("version", "8")]
      [XNode.elem "Bind" [] [],
       XNode.elem "VirtualHosts" []
         [XNode.elem "VirtualHost" [] [XNode.elem "Name" [] [XNode.text "default"]]]])
    [("Server", XVal.obj [("@version", XVal.text "8"), ("Bind", XVal.null),
      ("VirtualHosts", XVal.obj [("VirtualHost", XVal.obj
        [("Name", XVal.text "default")])])])]
    [("@version", XVal.text "8"), ("Bind", XVal.null),
      ("VirtualHosts", XVal.obj [("VirtualHost", XVal.obj
        [("Name", XVal.text "default")])])]
    [("VirtualHost", XVal.obj [("Name", XVal.text "default")])]
    [("Name", XVal.text "default")]
    (XVal.obj [("Name", XVal.text "edge")])
    rfl rfl rfl rfl rfl rfl rfl
  exact ⟨h.1, h.2.2⟩

/-! ## C7: validate_config semantics -/

/-- Claim C7, as stated, is false: the version and Bind checks use Python
membership, which degenerates to substring search when the Server entry is a
string.  On the configuration {Server: "@version Bind"} (the parse of the
document with that text content), validate_config returns (true, none) even
though the Server element carries no version attribute and contains no Bind
section. -/
theorem c7_counterexample :
    validate_config (XVal.obj [("Server", XVal.text "@version Bind")]) =
      (true, none) ∧
    objHasKey (XVal.text "@version Bind") "@version" = false ∧
    objHasKey (XVal.text "@version Bind") "Bind" = false :=
  ⟨rfl, rfl, rfl⟩

/-- Claim C7 amended: validate_config is total and never raises, returning a
pair for every input; every violation yields false together with a message;
and it returns (true, none) exactly when serialization succeeds, the
serialized form is syntactically valid, the configuration contains a Server
entry, and the Python membership tests for the version attribute key and the
Bind key succeed on the Server value — key membership when that value is a
dict, substring containment when it is a string. -/
theorem c7_validate_semantics (config : XVal) :
    ((validate_config config).1 = false →
      (validate_config config).2.isSome = true) ∧
    (validate_config config = (true, none) ↔
      ∃ txt, dict_to_xml config = Except.ok txt ∧ (validate_xml txt).1 = true ∧
        pyIn "Server" config = Except.ok true ∧
        ∃ sv, pyGetItem config "Server" = Except.ok sv ∧
          pyIn "@version" sv = Except.ok true ∧
          pyIn "Bind" sv = Except.ok true) := by
  rcases hdx : dict_to_xml config with e | txt
  · exact ⟨fun _ => by simp [validate_config, hdx],
      by simp [validate_config, hdx]⟩
  · rcases hvx : validate_xml txt with ⟨vb, vmsg⟩
    cases vb
    · exact ⟨fun _ => by simp [validate_config, hdx, hvx],
        by simp [validate_config, hdx, hvx]⟩
    · rcases hin : pyIn "Server" config with e2 | b
      · exact ⟨fun _ => by simp [validate_config, hdx, hvx, hin],
          by simp [validate_config, hdx, hvx, hin]⟩
      · cases b
        · exact ⟨fun _ => by simp [validate_config, hdx, hvx, hin],
            by simp [validate_config, hdx, hvx, hin]⟩
        · rcases hgi : pyGetItem config "Server" with e3 | sv
          · exact ⟨fun _ => by simp [validate_config, hdx, hvx, hin, hgi],
              by simp [validate_config, hdx, hvx, hin, hgi]⟩
          · rcases hv1 : pyIn "@version" sv with e4 | b1
            · exact ⟨fun _ => by simp [validate_config, hdx, hvx, hin, hgi, hv1],
                by simp [validate_config, hdx, hvx, hin, hgi, hv1]⟩
            · cases b1
              · exact ⟨fun _ => by simp [validate_config, hdx, hvx, hin, hgi, hv1],
                  by simp [validate_config, hdx, hvx, hin, hgi, hv1]⟩
              · rcases hb1 : pyIn "Bind" sv with e5 | b2
                · exact ⟨fun _ => by
                    simp [validate_config, hdx, hvx, hin, hgi, hv1, hb1],
                    by simp [validate_config, hdx, hvx, hin, hgi, hv1, hb1]⟩
                · cases b2
                  · exact ⟨fun _ => by
                      simp [validate_config, hdx, hvx, hin, hgi, hv1, hb1],
                      by simp [validate_config, hdx, hvx, hin, hgi, hv1, hb1]⟩
                  · exact ⟨fun h => by
                      simp [validate_config, hdx, hvx, hin, hgi, hv1, hb1] at h,
                      by simp [validate_config, hdx, hvx, hin, hgi, hv1, hb1]⟩

theorem c7_validate_semantics_witness :
    validate_config (XVal.obj [("Server", XVal.obj [("@version", XVal.text "8"),
      ("Bind", XVal.obj [("Providers", XVal.null)])])]) = (true, none) :=
  (c7_validate_semantics (XVal.obj [("Server", XVal.obj
    [("@version", XVal.text "8"),
     ("Bind", XVal.obj [("Providers", XVal.null)])])])).2.mpr
    ⟨XmlText.doc "Server" [("version", "8")] [XNode.elem "Bind" []
        [XNode.elem "Providers" [] []]],
      rfl, rfl, rfl,
      XVal.obj [("@version", XVal.text "8"),
        ("Bind", XVal.obj [("Providers", XVal.null)])],
      rfl, rfl, rfl⟩

/-! ## C3: single active snapshot -/

theorem activate_eq_map (store : List Snapshot) (sid : Nat) :
    activate store sid = store.map (fun s =>
      if (if s.is_active then { s with is_active := false } else s).id = sid then
        { (if s.is_active then { s with is_active := false } else s) with
            is_active := true }
      else (if s.is_active then { s with is_active := false } else s)) := by
  simp [activate, List.map_map]

theorem activate_mem_active_iff (store : List Snapshot) (sid : Nat) :
    ∀ s' ∈ activate store sid, (s'.is_active = true ↔ s'.id = sid) := by
  intro s' hmem
  rw [activate_eq_map] at hmem
  rcases List.mem_map.mp hmem with ⟨s, _, hs⟩
  subst hs
  by_cases h1 : s.is_active <;> by_cases h2 : s.id = sid <;> simp [h1, h2]

theorem activate_countP (store : List Snapshot) (sid : Nat) :
    (activate store sid).countP (fun s => s.is_active) =
      store.countP (fun s => s.id = sid) := by
  rw [activate_eq_map, List.countP_map]
  induction store with
  | nil => simp
  | cons x st ih =>
    simp only [List.countP_cons, ih]
    by_cases h1 : x.is_active <;> by_cases h2 : x.id = sid <;>
      simp [h1, h2, Function.comp]

theorem countP_id_eq_one (store : List Snapshot) (sid : Nat)
    (hnodup : (store.map (fun s => s.id)).Nodup)
    (hmem : sid ∈ store.map (fun s => s.id)) :
    store.countP (fun s => s.id = sid) = 1 := by
  induction store with
  | nil => simp at hmem
  | cons x st ih =>
    simp only [List.map_cons, List.nodup_cons, List.mem_map] at hnodup
    obtain ⟨hn1, hn2⟩ := hnodup
    simp only [List.map_cons, List.mem_cons, List.mem_map] at hmem
    rcases hmem with hx | hrest
    · subst hx
      have hz : st.countP (fun s => s.id = x.id) = 0 := by
        rw [List.countP_eq_zero]
        intro a ha
        simp only [decide_eq_true_eq]
        intro hc
        exact hn1 ⟨a, ha, hc⟩
      simp [List.countP_cons, hz]
    · obtain ⟨a, ha, hid⟩ := hrest
      have hne : ¬ (x.id = sid) := fun hc => hn1 ⟨a, ha, hid.trans hc.symm⟩
      have hcount := ih hn2 (List.mem_map.mpr ⟨a, ha, hid⟩)
      simp [List.countP_cons, hne, hcount]

theorem update_config_activeCount (st : SrvState) (path : String)
    (xml : XmlText) (d : String) (u i : Nat) (w : Bool) :
    activeCount (update_config st path xml d u i w).2.store =
      activeCount st.store := by
  rcases hv : validate_xml xml with ⟨b, msg⟩
  cases b
  · simp [update_config, hv]
  · rcases hf : fsGet st.fs path with _ | old
    · simp [update_config, hv, hf]
    · cases w
      · simp [update_config, hv, hf, activeCount, List.countP_append]
      · simp [update_config, hv, hf]

/-- Claim C3: after a successful restore of the snapshot with id sid, a
snapshot of the resulting table is active exactly when it is that snapshot,
and exactly one snapshot is active; moreover a configuration update never
changes the number of active snapshots (the created snapshot is inactive),
so at most one snapshot is active at any time. -/
theorem c3_single_active (st : SrvState) (path : String) (sid : Nat)
    (ts : String) (v : Nat) (st' : SrvState)
    (hnodup : (st.store.map (fun s => s.id)).Nodup)
    (hrun : restore_snapshot_route st path sid ts = (RestoreResp.success v, st')) :
    (∀ s ∈ st'.store, (s.is_active = true ↔ s.id = sid)) ∧
    activeCount st'.store = 1 ∧
    (∀ st2 path2 xml d u i w,
      activeCount (update_config st2 path2 xml d u i w).2.store =
        activeCount st2.store) := by
  rcases hf : st.store.find? (fun s => s.id = sid) with _ | snap
  · rw [restore_snapshot_route] at hrun
    simp only [hf] at hrun
    exact absurd hrun (by simp)
  · have hsnapid : snap.id = sid := by
      have := List.find?_some hf
      simpa using this
    have hsnapmem : snap ∈ st.store := List.mem_of_find?_eq_some hf
    rw [restore_snapshot_route] at hrun
    simp only [hf] at hrun
    rcases hr : (restore_from_snapshot st.fs path snap.configuration_data ts).err
      with _ | e
    · rw [hr] at hrun
      simp only [Prod.mk.injEq] at hrun
      have hst : st'.store = activate st.store sid := by
        rw [← hrun.2]
      refine ⟨?_, ?_, fun st2 path2 xml d u i w =>
        update_config_activeCount st2 path2 xml d u i w⟩
      · rw [hst]
        exact activate_mem_active_iff st.store sid
      · rw [hst, activeCount, activate_countP]
        exact countP_id_eq_one st.store sid hnodup
          (List.mem_map.mpr ⟨snap, hsnapmem, hsnapid⟩)
    · rw [hr] at hrun
      exact absurd hrun (by simp)


theorem c3_single_active_witness :
    activeCount (restore_snapshot_route
      { fs := [("Server.xml", XmlText.doc "Live" [] [])],
        store := [⟨1, 1, "", "server_xml",
          XmlText.doc "Server" [("version", "8")] [XNode.elem "Bind" [] []],
          1, false⟩,
          ⟨2, 2, "", "server_xml", XmlText.doc "Other" [] [], 1, true⟩] }
      "Server.xml" 1 "ts").2.store = 1 :=
  (c3_single_active
    { fs := [("Server.xml", XmlText.doc "Live" [] [])],
      store := [⟨1, 1, "", "server_xml",
        XmlText.doc "Server" [("version", "8")] [XNode.elem "Bind" [] []],
        1, false⟩,
        ⟨2, 2, "", "server_xml", XmlText.doc "Other" [] [], 1, true⟩] }
    "Server.xml" 1 "ts" 1
    (restore_snapshot_route
      { fs := [("Server.xml", XmlText.doc "Live" [] [])],
        store := [⟨1, 1, "", "server_xml",
          XmlText.doc "Server" [("version", "8")] [XNode.elem "Bind" [] []],
          1, false⟩,
          ⟨2, 2, "", "server_xml", XmlText.doc "Other" [] [], 1, true⟩] }
      "Server.xml" 1 "ts").2
    (by decide) rfl).2.1

/-! ## C4: snapshot version monotonicity -/

theorem foldr_max_range' (n s : Nat) :
    (List.range' s (n + 1)).foldr Nat.max 0 = s + n := by
  induction n generalizing s with
  | zero => simp [List.range']
  | succ n ih =>
    have h : List.range' s (n + 2) = s :: List.range' (s + 1) (n + 1) := by
      simp [List.range']
    rw [h, List.foldr_cons, ih (s + 1)]
    unfold Nat.max
    omega

theorem foldr_max_range (k : Nat) :
    (List.range' 1 k).foldr Nat.max 0 = k := by
  cases k with
  | zero => simp [List.range']
  | succ n => rw [foldr_max_range' n 1]; omega

theorem range'_concat_gen (k : Nat) :
    ∀ s, List.range' s k ++ [s + k] = List.range' s (k + 1) := by
  induction k with
  | zero => intro s; simp [List.range']
  | succ n ih =>
    intro s
    have h1 : List.range' s (n + 1) = s :: List.range' (s + 1) n := by
      simp [List.range']
    have h2 : List.range' s (n + 2) = s :: List.range' (s + 1) (n + 1) := by
      simp [List.range']
    rw [h1, h2, List.cons_append]
    rw [show s + (n + 1) = (s + 1) + n by omega]
    rw [ih (s + 1)]

theorem range'_concat_one (k : Nat) :
    List.range' 1 k ++ [k + 1] = List.range' 1 (k + 1) := by
  have h := range'_concat_gen k 1
  rw [show (1 : Nat) + k = k + 1 by omega] at h
  exact h

theorem run_updates_versions (txts : List XmlText) :
    ∀ (st : SrvState) (path : String) (k : Nat),
    (∀ x ∈ txts, (validate_xml x).1 = true) →
    (fsGet st.fs path).isSome = true →
    st.store.map (fun s => s.version) = List.range' 1 k →
    (run_updates st path txts).store.map (fun s => s.version) =
      List.range' 1 (k + txts.length) := by
  induction txts with
  | nil =>
    intro st path k _ _ hmap
    simpa [run_updates] using hmap
  | cons x rest ih =>
    intro st path k hvalid hfile hmap
    rcases hv : validate_xml x with ⟨b, msg⟩
    have hb : b = true := by
      have := hvalid x (List.mem_cons_self x rest)
      rw [hv] at this
      simpa using this
    subst hb
    rcases hfs : fsGet st.fs path with _ | old
    · rw [hfs] at hfile
      simp at hfile
    · have hlatest : get_latest_version st.store = k := by
        rw [get_latest_version, hmap, foldr_max_range]
      have hstep : (update_config st path x "" 0 0 false).2 =
          { fs := fsSet st.fs path x,
            store := st.store ++
              [⟨0, get_latest_version st.store + 1, "", "server_xml", old, 0, false⟩] } := by
        simp [update_config, hv, hfs]
      rw [run_updates, hstep]
      have hnext := ih
        { fs := fsSet st.fs path x,
          store := st.store ++
            [⟨0, get_latest_version st.store + 1, "", "server_xml", old, 0, false⟩] }
        path (k + 1)
        (fun y hy => hvalid y (List.mem_cons_of_mem x hy))
        (by simp [fsGet_fsSet_same])
        (by
          simp only [List.map_append, List.map_cons, List.map_nil, hmap, hlatest]
          exact range'_concat_one k)
      rw [hnext]
      congr 1
      simp [List.length_cons]
      omega

/-- Claim C4: snapshot versions start at 1 and are assigned as
latest_version + 1, with latest_version 0 on an empty table; after N
successful sequential configuration updates starting from an empty table
the stored versions are exactly 1..N, without duplicates. -/
theorem c4_version_monotonicity (fs0 : Fs) (path : String) (t0 : XmlText)
    (txts : List XmlText)
    (hfile : fsGet fs0 path = some t0)
    (hvalid : ∀ x ∈ txts, (validate_xml x).1 = true) :
    get_latest_version [] = 0 ∧
    (run_updates { fs := fs0, store := [] } path txts).store.map
      (fun s => s.version) = List.range' 1 txts.length ∧
    ((run_updates { fs := fs0, store := [] } path txts).store.map
      (fun s => s.version)).Nodup := by
  have hmain := run_updates_versions txts { fs := fs0, store := [] } path 0
    hvalid (by simp [hfile]) (by simp [List.range'])
  refine ⟨rfl, by simpa using hmain, ?_⟩
  rw [show (0 + txts.length) = txts.length by omega] at hmain
  rw [hmain]
  exact List.nodup_range' _ _

theorem c4_version_monotonicity_witness :
    (run_updates { fs := [("Server.xml", XmlText.doc "Old" [] [])], store := [] }
      "Server.xml" [XmlText.doc "A" [] [], XmlText.doc "B" [] []]).store.map
      (fun s => s.version) = List.range' 1 2 :=
  (c4_version_monotonicity [("Server.xml", XmlText.doc "Old" [] [])] "Server.xml"
    (XmlText.doc "Old" [] []) [XmlText.doc "A" [] [], XmlText.doc "B" [] []]
    rfl (by decide)).2.1

/-! ## C6: round trip through the codec

The round-trip proof characterizes the values the parse direction produces
and shows the emit direction rebuilds, for each such value, an element that
parses back to the same value. -/

theorem string_eq_of_data_eq {s t : String} (h : s.data = t.data) : s = t := by
  cases s
  cases t
  exact congrArg String.mk (by simpa using h)

theorem atSign_append (k : String) : strHasAtSign ("@" ++ k) = true := by
  rw [strHasAtSign, string_data_append]
  rfl

theorem drop1_append (k : String) : strDrop1 ("@" ++ k) = k := by
  rw [strDrop1, string_data_append]
  exact string_eq_of_data_eq rfl

theorem atSign_ne_hash {k : String} (h : strHasAtSign k = true) : k ≠ "#text" := by
  intro he
  subst he
  simp [strHasAtSign] at h

theorem nameOk_not_atSign {k : String} (h : xmlNameOk k = true) :
    strHasAtSign k = false := by
  rw [xmlNameOk] at h
  rw [strHasAtSign]
  rcases hd : k.data with _ | ⟨c, rest⟩
  · rfl
  · rw [hd] at h
    simp only [Bool.and_eq_true] at h
    have hc : xmlNameStartOk c = true := h.1
    by_cases hat : c = '@'
    · subst hat
      simp [xmlNameStartOk, Char.isAlpha, Char.isUpper, Char.isLower] at hc
    · simp [hat]

theorem nameOk_ne_hash {k : String} (h : xmlNameOk k = true) : k ≠ "#text" := by
  intro he
  subst he
  simp [xmlNameOk, xmlNameStartOk, Char.isAlpha, Char.isUpper, Char.isLower] at h

theorem dropWhile_idem (p : Char → Bool) (l : List Char) :
    (l.dropWhile p).dropWhile p = l.dropWhile p := by
  rcases hd : l.dropWhile p with _ | ⟨x, rest⟩
  · rfl
  · have hx : p x = false := by
      have := List.head_dropWhile_not p (l := l) (by rw [hd]; simp)
      simpa [hd] using this
    simp [List.dropWhile_cons, hx]

theorem dropWhile_strip_head (p : Char → Bool) (x : Char) (m : List Char)
    (hx : p x = false) :
    ((x :: m).reverse.dropWhile p).reverse.dropWhile p =
      ((x :: m).reverse.dropWhile p).reverse := by
  have hrev : (x :: m).reverse = m.reverse ++ [x] := by simp
  rw [hrev]
  rcases he : m.reverse.dropWhile p with _ | ⟨z, zrest⟩
  · have : (m.reverse ++ [x]).dropWhile p = [x] := by
      rw [List.dropWhile_append]
      simp [he, List.dropWhile_cons, hx]
    simp [this, List.dropWhile_cons, hx]
  · have : (m.reverse ++ [x]).dropWhile p = (z :: zrest) ++ [x] := by
      rw [List.dropWhile_append]
      simp [he]
    rw [this]
    simp [List.dropWhile_cons, hx]

theorem pyStripList_idem (l : List Char) :
    pyStripList (pyStripList l) = pyStripList l := by
  unfold pyStripList
  rcases hm : l.dropWhile pyIsSpace with _ | ⟨x, m⟩
  · simp
  · have hx : pyIsSpace x = false := by
      have := List.head_dropWhile_not pyIsSpace (l := l) (by rw [hm]; simp)
      simpa [hm] using this
    have step1 : (((x :: m).reverse.dropWhile pyIsSpace).reverse).dropWhile pyIsSpace =
        ((x :: m).reverse.dropWhile pyIsSpace).reverse :=
      dropWhile_strip_head pyIsSpace x m hx
    rw [step1]
    rw [List.reverse_reverse, dropWhile_idem]

theorem pyStrip_idem (s : String) : pyStrip (pyStrip s) = pyStrip s := by
  unfold pyStrip
  exact string_eq_of_data_eq (by simp [pyStripList_idem])

theorem pyStrip_empty : pyStrip "" = "" := by decide

/-- Whether a Python value is a list. -/
def XVal.isArr : XVal → Bool
  | XVal.arr _ => true
  | _ => false

/-- The merge performed by pushData on an existing entry value. -/
def pushMerge (w v : XVal) : XVal :=
  match w with
  | XVal.arr ws => XVal.arr (ws ++ [v])
  | _ => XVal.arr [w, v]

theorem pushData_notMem (item : List (String × XVal)) (k : String) (v : XVal)
    (h : ∀ p ∈ item, p.1 ≠ k) : pushData item k v = item ++ [(k, v)] := by
  induction item with
  | nil => rfl
  | cons hd tl ih =>
    obtain ⟨k', w⟩ := hd
    have hk : k' ≠ k := h (k', w) (List.mem_cons_self _ _)
    simp only [pushData, hk, if_false]
    rw [ih (fun p hp => h p (List.mem_cons_of_mem _ hp))]
    simp

theorem pushData_skip_left (item0 X : List (String × XVal)) (k : String) (v : XVal)
    (h : ∀ p ∈ item0, p.1 ≠ k) :
    pushData (item0 ++ X) k v = item0 ++ pushData X k v := by
  induction item0 with
  | nil => simp
  | cons hd tl ih =>
    obtain ⟨k', w⟩ := hd
    have hk : k' ≠ k := h (k', w) (List.mem_cons_self _ _)
    simp only [List.cons_append, pushData, hk, if_false]
    exact congrArg (fun l => (k', w) :: l)
      (ih (fun p hp => h p (List.mem_cons_of_mem _ hp)))

theorem pushData_last_arr (item : List (String × XVal)) (k : String)
    (ws : List XVal) (v : XVal) (h : ∀ p ∈ item, p.1 ≠ k) :
    pushData (item ++ [(k, XVal.arr ws)]) k v =
      item ++ [(k, XVal.arr (ws ++ [v]))] := by
  rw [pushData_skip_left item _ k v h]
  simp [pushData]

theorem pushData_last_scalar (item : List (String × XVal)) (k : String)
    (w v : XVal) (hw : w.isArr = false) (h : ∀ p ∈ item, p.1 ≠ k) :
    pushData (item ++ [(k, w)]) k v = item ++ [(k, XVal.arr [w, v])] := by
  rw [pushData_skip_left item _ k v h]
  cases w <;> simp_all [pushData, XVal.isArr]

theorem pushData_keys (item : List (String × XVal)) (k : String) (v : XVal) :
    (pushData item k v).map Prod.fst = item.map Prod.fst ∨
    (pushData item k v).map Prod.fst = item.map Prod.fst ++ [k] := by
  induction item with
  | nil => right; rfl
  | cons hd tl ih =>
    obtain ⟨k', w⟩ := hd
    by_cases hk : k' = k
    · left
      subst hk
      cases w <;> simp [pushData]
    · simp only [pushData, hk, if_false]
      rcases ih with h | h
      · left; simp [h]
      · right; simp [h]

/-! Decomposition of the child fold: the tag-value pairs of the element
children, the concatenated character data, and the grouping fold. -/

/-- The (tag, value) pairs contributed by the element children, in order. -/
def tagPairs : List XNode → List (String × XVal)
  | [] => []
  | XNode.text _ :: rest => tagPairs rest
  | XNode.elem t a c :: rest => (t, elemVal (XNode.elem t a c)) :: tagPairs rest

/-- The concatenation of the character data of the text children. -/
def textOf : List XNode → String
  | [] => ""
  | XNode.text s :: rest => s ++ textOf rest
  | XNode.elem _ _ _ :: rest => textOf rest

/-- The grouping fold of the parse direction over tag-value pairs. -/
def groupFold (item : List (String × XVal)) :
    List (String × XVal) → List (String × XVal)
  | [] => item
  | (k, v) :: rest => groupFold (pushData item k v) rest

theorem str_append_assoc (a b c : String) : (a ++ b) ++ c = a ++ (b ++ c) := by
  apply string_eq_of_data_eq
  simp [string_data_append]

theorem runChildren_decomp (cs : List XNode) :
    ∀ (item : List (String × XVal)) (data : String),
    runChildren item data cs = (groupFold item (tagPairs cs), data ++ textOf cs) := by
  induction cs with
  | nil =>
    intro item data
    apply Prod.ext
    · rfl
    · apply string_eq_of_data_eq
      simp [runChildren, textOf, string_data_append]
  | cons n rest ih =>
    intro item data
    cases n with
    | text s =>
      rw [runChildren, ih, tagPairs, textOf, str_append_assoc]
    | elem t a c =>
      rw [runChildren, ih, tagPairs, textOf, groupFold]

theorem groupFold_skip_left (pairs : List (String × XVal)) :
    ∀ (item0 X : List (String × XVal)),
    (∀ q ∈ pairs, ∀ p ∈ item0, p.1 ≠ q.1) →
    groupFold (item0 ++ X) pairs = item0 ++ groupFold X pairs := by
  induction pairs with
  | nil => intro item0 X _; rfl
  | cons q rest ih =>
    intro item0 X h
    obtain ⟨k, v⟩ := q
    rw [groupFold, pushData_skip_left item0 X k v
      (fun p hp => h (k, v) (List.mem_cons_self _ _) p hp)]
    exact ih item0 (pushData X k v) (fun q hq p hp => h q (List.mem_cons_of_mem _ hq) p hp)

/-! Image predicates: a value is rebuildable when re-emitting it under its
key produces a well-formed element that parses back to the same value. -/

/-- A non-list value that, emitted under key k, yields a well-formed element
with tag k whose parse value is the value itself. -/
def RebuildP (k : String) (v : XVal) : Prop :=
  v.isArr = false ∧ ∃ n, emitOne k v = some n ∧ elemVal n = v ∧
    (∃ a c, n = XNode.elem k a c) ∧ nodeOk n = true

/-- A grouped entry: a valid tag key with, as value, either one rebuildable
value or a list of at least two rebuildable values. -/
def EntryGood (k : String) (v : XVal) : Prop :=
  xmlNameOk k = true ∧
  (RebuildP k v ∨ ∃ vs, v = XVal.arr vs ∧ 2 ≤ vs.length ∧ ∀ w ∈ vs, RebuildP k w)

/-- A well-formed grouped tag-entry list: distinct keys, each entry good. -/
def TGood (T : List (String × XVal)) : Prop :=
  (T.map Prod.fst).Nodup ∧ ∀ p ∈ T, EntryGood p.1 p.2

theorem tgood_nil : TGood [] := ⟨List.nodup_nil, by simp⟩

theorem tgood_tail {q : String × XVal} {T : List (String × XVal)}
    (h : TGood (q :: T)) : TGood T :=
  ⟨(List.nodup_cons.mp h.1).2, fun p hp => h.2 p (List.mem_cons_of_mem _ hp)⟩

theorem tgood_pushData {X : List (String × XVal)} {k : String} {v : XVal}
    (hX : TGood X) (hk : xmlNameOk k = true) (hv : RebuildP k v) :
    TGood (pushData X k v) := by
  induction X with
  | nil =>
    refine ⟨by simp [pushData], ?_⟩
    intro p hp
    simp only [pushData, List.mem_singleton] at hp
    subst hp
    exact ⟨hk, Or.inl hv⟩
  | cons hd tl ih =>
    obtain ⟨k', w⟩ := hd
    obtain ⟨hnodup, hgood⟩ := hX
    simp only [List.map_cons, List.nodup_cons] at hnodup
    by_cases hkk : k' = k
    · subst hkk
      have hw : EntryGood k' w := hgood (k', w) (List.mem_cons_self _ _)
      have hmerged : EntryGood k' (pushMerge w v) := by
        refine ⟨hw.1, Or.inr ?_⟩
        rcases hw.2 with hscalar | ⟨ws, hws, hlen, hall⟩
        · refine ⟨[w, v], ?_, by simp, ?_⟩
          · rcases hw2 : w with _ | _ | _ | ws
            · rfl
            · rfl
            · rfl
            · exact absurd (hw2 ▸ hscalar).1 (by simp [XVal.isArr])
          · intro x hx
            rcases List.mem_cons.mp hx with hx | hx
            · subst hx
              exact hscalar
            · simp at hx
              subst hx
              exact hv
        · subst hws
          refine ⟨ws ++ [v], rfl, by simp; omega, ?_⟩
          intro x hx
          rcases List.mem_append.mp hx with hx | hx
          · exact hall x hx
          · simp at hx
            subst hx
            exact hv
      have hstep : pushData ((k', w) :: tl) k' v = (k', pushMerge w v) :: tl := by
        cases w <;> simp [pushData, pushMerge]
      rw [hstep]
      refine ⟨by simpa using hnodup, ?_⟩
      intro p hp
      rcases List.mem_cons.mp hp with hp | hp
      · subst hp
        exact hmerged
      · exact hgood p (List.mem_cons_of_mem _ hp)
    · have hstep : pushData ((k', w) :: tl) k v = (k', w) :: pushData tl k v := by
        simp [pushData, hkk]
      rw [hstep]
      have htl : TGood tl :=
        ⟨hnodup.2, fun p hp => hgood p (List.mem_cons_of_mem _ hp)⟩
      have hpush := ih htl
      refine ⟨?_, ?_⟩
      · simp only [List.map_cons, List.nodup_cons]
        refine ⟨?_, hpush.1⟩
        intro hc
        rcases pushData_keys tl k v with hkeys | hkeys
        · rw [hkeys] at hc
          exact hnodup.1 hc
        · rw [hkeys] at hc
          rcases List.mem_append.mp hc with hc | hc
          · exact hnodup.1 hc
          · simp at hc
            exact hkk hc
      · intro p hp
        rcases List.mem_cons.mp hp with hp | hp
        · subst hp
          exact hgood (k', w) (List.mem_cons_self _ _)
        · exact hpush.2 p hp

theorem tgood_groupFold (pairs : List (String × XVal)) :
    ∀ X, TGood X →
    (∀ q ∈ pairs, xmlNameOk q.1 = true ∧ RebuildP q.1 q.2) →
    TGood (groupFold X pairs) := by
  induction pairs with
  | nil => intro X hX _; exact hX
  | cons q rest ih =>
    intro X hX h
    obtain ⟨k, v⟩ := q
    rw [groupFold]
    exact ih (pushData X k v)
      (tgood_pushData hX (h (k, v) (List.mem_cons_self _ _)).1
        (h (k, v) (List.mem_cons_self _ _)).2)
      (fun p hp => h p (List.mem_cons_of_mem _ hp))

/-- Every pair in tagPairs comes from an element child with that tag. -/
theorem tagPairs_mem {cs : List XNode} {p : String × XVal}
    (hp : p ∈ tagPairs cs) :
    ∃ a c, XNode.elem p.1 a c ∈ cs ∧ p.2 = elemVal (XNode.elem p.1 a c) := by
  induction cs with
  | nil => simp [tagPairs] at hp
  | cons n rest ih =>
    cases n with
    | text s =>
      rw [tagPairs] at hp
      rcases ih hp with ⟨a, c, hmem, hval⟩
      exact ⟨a, c, List.mem_cons_of_mem _ hmem, hval⟩
    | elem t a c =>
      rw [tagPairs] at hp
      rcases List.mem_cons.mp hp with hp | hp
      · subst hp
        exact ⟨a, c, List.mem_cons_self _ _, rfl⟩
      · rcases ih hp with ⟨a', c', hmem, hval⟩
        exact ⟨a', c', List.mem_cons_of_mem _ hmem, hval⟩

theorem nodesOk_mem {cs : List XNode} {n : XNode} (h : nodesOk cs = true)
    (hn : n ∈ cs) : nodeOk n = true := by
  induction cs with
  | nil => simp at hn
  | cons m rest ih =>
    rw [nodesOk] at h
    simp only [Bool.and_eq_true] at h
    rcases List.mem_cons.mp hn with hn | hn
    · subst hn
      exact h.1
    · exact ih h.2 hn

theorem updateAssoc_notMem (at0 : List (String × String)) (x w : String)
    (h : ∀ q ∈ at0, q.1 ≠ x) : updateAssoc at0 x w = at0 ++ [(x, w)] := by
  induction at0 with
  | nil => rfl
  | cons hd tl ih =>
    obtain ⟨k', v'⟩ := hd
    have hk : k' ≠ x := h (k', v') (List.mem_cons_self _ _)
    simp only [updateAssoc, hk, if_false, List.cons_append]
    exact congrArg (fun l => (k', v') :: l)
      (ih (fun q hq => h q (List.mem_cons_of_mem _ hq)))

theorem nodesOk_append (xs ys : List XNode) :
    nodesOk (xs ++ ys) = (nodesOk xs && nodesOk ys) := by
  induction xs with
  | nil => simp [nodesOk]
  | cons n rest ih =>
    simp [nodesOk, ih, Bool.and_assoc]

theorem runChildren_append (xs ys : List XNode) :
    ∀ item data, runChildren item data (xs ++ ys) =
      runChildren (runChildren item data xs).1 (runChildren item data xs).2 ys := by
  induction xs with
  | nil => intro item data; rfl
  | cons n rest ih =>
    intro item data
    cases n with
    | text s => simp only [List.cons_append, List.append_eq, runChildren, ih]
    | elem t a c => simp only [List.cons_append, List.append_eq, runChildren, ih]

theorem pushFold_acc (k : String) (item : List (String × XVal))
    (h : ∀ p ∈ item, p.1 ≠ k) :
    ∀ (vs : List XVal) (ws : List XVal),
    List.foldl (fun it w => pushData it k w) (item ++ [(k, XVal.arr ws)]) vs =
      item ++ [(k, XVal.arr (ws ++ vs))] := by
  intro vs
  induction vs with
  | nil => intro ws; simp
  | cons v rest ih =>
    intro ws
    rw [List.foldl_cons, pushData_last_arr item k ws v h, ih (ws ++ [v])]
    simp

theorem pushFold_arr (k : String) (item : List (String × XVal))
    (h : ∀ p ∈ item, p.1 ≠ k) (v1 v2 : XVal) (vs : List XVal)
    (hv1 : v1.isArr = false) :
    List.foldl (fun it w => pushData it k w) item (v1 :: v2 :: vs) =
      item ++ [(k, XVal.arr (v1 :: v2 :: vs))] := by
  rw [List.foldl_cons, pushData_notMem item k v1 h, List.foldl_cons,
    pushData_last_scalar item k v1 v2 hv1 h, pushFold_acc k item h vs [v1, v2]]
  simp

theorem emitList_block (k : String) :
    ∀ vs : List XVal, (∀ w ∈ vs, RebuildP k w) →
    ∃ block, emitList k vs = some block ∧ nodesOk block = true ∧
      (∀ n ∈ block, ∃ a c, n = XNode.elem k a c) ∧
      ∀ item d, runChildren item d block =
        (List.foldl (fun it w => pushData it k w) item vs, d) := by
  intro vs
  induction vs with
  | nil =>
    intro _
    exact ⟨[], rfl, rfl, by simp, fun item d => rfl⟩
  | cons w rest ih =>
    intro hall
    obtain ⟨hnarr, n, hemit, hval, ⟨na, nc, hn⟩, hnok⟩ :=
      hall w (List.mem_cons_self _ _)
    obtain ⟨block, hblock, hbok, hbelem, hbrun⟩ :=
      ih (fun x hx => hall x (List.mem_cons_of_mem _ hx))
    refine ⟨n :: block, ?_, ?_, ?_, ?_⟩
    · rw [emitList, hemit, hblock]
    · rw [nodesOk, hnok, hbok]
      rfl
    · intro m hm
      rcases List.mem_cons.mp hm with hm | hm
      · subst hm
        exact ⟨na, nc, hn⟩
      · exact hbelem m hm
    · intro item d
      subst hn
      rw [runChildren, hval, hbrun, List.foldl_cons]

/-- Grouped entries emit to a block of well-formed elements that the parse
fold turns back into exactly those entries. -/
theorem emit_grouped : ∀ T : List (String × XVal), TGood T →
    ∃ ns, nodesOk ns = true ∧
      (∀ n ∈ ns, ∃ k a c, n = XNode.elem k a c) ∧
      (∀ key attrs ch cd rest,
        emitObj key attrs ch cd (T ++ rest) = emitObj key attrs (ch ++ ns) cd rest) ∧
      (∀ item d, (∀ p ∈ item, ∀ q ∈ T, p.1 ≠ q.1) →
        runChildren item d ns = (item ++ T, d)) := by
  intro T
  induction T with
  | nil =>
    intro _
    exact ⟨[], rfl, by simp, fun key attrs ch cd rest => by simp,
      fun item d _ => by simp [runChildren]⟩
  | cons q T' ih =>
    intro hT
    obtain ⟨k, v⟩ := q
    have hentry : EntryGood k v := hT.2 (k, v) (List.mem_cons_self _ _)
    have hkname : xmlNameOk k = true := hentry.1
    have hkhash : k ≠ "#text" := nameOk_ne_hash hkname
    have hkat : strHasAtSign k = false := nameOk_not_atSign hkname
    have hknodup : ∀ q' ∈ T', q'.1 ≠ k := by
      intro q' hq' hc
      have := hT.1
      simp only [List.map_cons, List.nodup_cons] at this
      exact this.1 (List.mem_map.mpr ⟨q', hq', hc⟩)
    obtain ⟨ns', hok', helem', hemit', hrun'⟩ := ih (tgood_tail hT)
    rcases hentry.2 with hscalar | ⟨vs, hvs, hlen, hall⟩
    · obtain ⟨hnarr, n, hemit, hval, ⟨na, nc, hn⟩, hnok⟩ := hscalar
      refine ⟨n :: ns', ?_, ?_, ?_, ?_⟩
      · rw [nodesOk, hnok, hok']
        rfl
      · intro m hm
        rcases List.mem_cons.mp hm with hm | hm
        · subst hm
          exact ⟨k, na, nc, hn⟩
        · exact helem' m hm
      · intro key attrs ch cd rest
        have hstep : emitObj key attrs ch cd (((k, v) :: T') ++ rest) =
            emitObj key attrs (ch ++ [n]) cd (T' ++ rest) := by
          rcases v with _ | s | ses | vs2
          · simp only [emitOne, Option.some.injEq] at hemit
            subst hemit
            simp [emitObj, hkhash, hkat]
          · simp only [emitOne, Option.some.injEq] at hemit
            subst hemit
            simp [emitObj, hkhash, hkat]
          · have hemit2 : emitObj k [] [] none ses = some n := by
              rw [emitOne] at hemit
              exact hemit
            simp [emitObj, hkhash, hkat, hemit2]
          · exact absurd hnarr (by simp [XVal.isArr])
        rw [hstep, hemit' key attrs (ch ++ [n]) cd rest]
        simp
      · intro item d hdisj
        subst hn
        rw [runChildren, hval]
        have hpk : ∀ p ∈ item, p.1 ≠ k :=
          fun p hp => hdisj p hp (k, v) (List.mem_cons_self _ _)
        rw [pushData_notMem item k v hpk]
        rw [hrun' (item ++ [(k, v)]) d ?_]
        · simp
        · intro p hp q' hq'
          rcases List.mem_append.mp hp with hp | hp
          · exact hdisj p hp q' (List.mem_cons_of_mem _ hq')
          · simp at hp
            subst hp
            exact fun hc => hknodup q' hq' hc.symm
    · subst hvs
      obtain ⟨block, hblock, hbok, hbelem, hbrun⟩ := emitList_block k vs hall
      refine ⟨block ++ ns', ?_, ?_, ?_, ?_⟩
      · rw [nodesOk_append, hbok, hok']
        rfl
      · intro m hm
        rcases List.mem_append.mp hm with hm | hm
        · rcases hbelem m hm with ⟨a, c, hmc⟩
          exact ⟨k, a, c, hmc⟩
        · exact helem' m hm
      · intro key attrs ch cd rest
        have hstep : emitObj key attrs ch cd (((k, XVal.arr vs) :: T') ++ rest) =
            emitObj key attrs (ch ++ block) cd (T' ++ rest) := by
          simp [emitObj, hkhash, hkat, hblock]
        rw [hstep, hemit' key attrs (ch ++ block) cd rest]
        simp
      · intro item d hdisj
        rw [runChildren_append, hbrun item d]
        have hpk : ∀ p ∈ item, p.1 ≠ k :=
          fun p hp => hdisj p hp (k, XVal.arr vs) (List.mem_cons_self _ _)
        rcases vs with _ | ⟨v1, _ | ⟨v2, vs''⟩⟩
        · simp at hlen
        · simp at hlen
        · have hv1 : v1.isArr = false := (hall v1 (List.mem_cons_self _ _)).1
          rw [pushFold_arr k item hpk v1 v2 vs'' hv1]
          rw [hrun' (item ++ [(k, XVal.arr (v1 :: v2 :: vs''))]) d ?_]
          · simp
          · intro p hp q' hq'
            rcases List.mem_append.mp hp with hp | hp
            · exact hdisj p hp q' (List.mem_cons_of_mem _ hq')
            · simp at hp
              subst hp
              exact fun hc => hknodup q' hq' hc.symm

theorem str_empty_append (s : String) : "" ++ s = s :=
  string_eq_of_data_eq (by rw [string_data_append]; rfl)

/-- Emitting the @-prefixed attribute entries restores the attribute list. -/
theorem attr_emit : ∀ (a at0 : List (String × String)),
    attrsOk a = true →
    (∀ p ∈ a, ∀ q ∈ at0, q.1 ≠ p.1) →
    ∀ key ch cd rest,
    emitObj key at0 ch cd
      ((a.map (fun p => ("@" ++ p.1, XVal.text p.2))) ++ rest) =
      emitObj key (at0 ++ a) ch cd rest := by
  intro a
  induction a with
  | nil =>
    intro at0 _ _ key ch cd rest
    simp
  | cons hd a' ih =>
    intro at0 hok hdisj key ch cd rest
    obtain ⟨x, w⟩ := hd
    rw [attrsOk] at hok
    simp only [Bool.and_eq_true] at hok
    obtain ⟨⟨hx, hdist⟩, hok'⟩ := hok
    have h1 : ("@" ++ x) ≠ "#text" := atSign_ne_hash (atSign_append x)
    have h2 : strHasAtSign ("@" ++ x) = true := atSign_append x
    have hupd : updateAssoc at0 (strDrop1 ("@" ++ x)) w = at0 ++ [(x, w)] := by
      rw [drop1_append]
      exact updateAssoc_notMem at0 x w
        (fun q hq => hdisj (x, w) (List.mem_cons_self _ _) q hq)
    have hstep : emitObj key at0 ch cd
        ((((x, w) :: a').map (fun p => ("@" ++ p.1, XVal.text p.2))) ++ rest) =
        emitObj key (at0 ++ [(x, w)]) ch cd
          ((a'.map (fun p => ("@" ++ p.1, XVal.text p.2))) ++ rest) := by
      simp only [List.map_cons, List.cons_append, List.append_eq, emitObj, h1,
        if_false, h2, if_true, hupd]
    rw [hstep]
    rw [ih (at0 ++ [(x, w)]) hok' ?_ key ch cd rest]
    · simp
    · intro p hp q hq
      rcases List.mem_append.mp hq with hq | hq
      · exact hdisj p (List.mem_cons_of_mem _ hp) q hq
      · simp at hq
        subst hq
        have hthis := List.all_eq_true.mp hdist p hp
        simp at hthis
        exact fun hc => hthis hc.symm

/-- The value built by the parse direction from grouped entries and stripped
character data. -/
def buildVal (item : List (String × XVal)) (d : String) : XVal :=
  if item.isEmpty then (if d = "" then XVal.null else XVal.text d)
  else if d = "" then XVal.obj item
  else XVal.obj (pushData item "#text" (XVal.text d))

theorem elemVal_elem (t : String) (a : List (String × String)) (c : List XNode) :
    elemVal (XNode.elem t a c) =
      buildVal
        (groupFold (a.map (fun p => ("@" ++ p.1, XVal.text p.2))) (tagPairs c))
        (pyStrip (textOf c)) := by
  rw [elemVal, runChildren_decomp, str_empty_append]
  rfl

theorem elemVal_not_arr (n : XNode) : (elemVal n).isArr = false := by
  cases n with
  | text s => rfl
  | elem t a c =>
    rw [elemVal_elem, buildVal]
    by_cases h1 : (groupFold (a.map (fun p => ("@" ++ p.1, XVal.text p.2)))
        (tagPairs c)).isEmpty <;>
      by_cases h2 : pyStrip (textOf c) = "" <;>
        simp [h1, h2, XVal.isArr]

/-- Structural induction over XML nodes with the induction hypothesis for
every child of an element. -/
theorem xnode_ind (motive : XNode → Prop)
    (ht : ∀ s, motive (XNode.text s))
    (he : ∀ t a c, (∀ m ∈ c, motive m) → motive (XNode.elem t a c)) :
    ∀ n, motive n := by
  have H : ∀ k n, sizeOf n ≤ k → motive n := by
    intro k
    induction k with
    | zero =>
      intro n h
      cases n <;> simp at h
    | succ k ih =>
      intro n h
      cases n with
      | text s => exact ht s
      | elem t a c =>
        refine he t a c (fun m hm => ih m ?_)
        have h1 := List.sizeOf_lt_of_mem hm
        have h2 : sizeOf c < sizeOf (XNode.elem t a c) := by
          simp
        omega
  exact fun n => H (sizeOf n) n (Nat.le_refl _)

theorem str_append_empty (s : String) : s ++ "" = s :=
  string_eq_of_data_eq (by rw [string_data_append]; simp [show ("" : String).data = [] from rfl])

/-- Every well-formed element parses to a value that re-emits, under the
element's tag, as a well-formed element with the same parse value. -/
theorem rebuild_elem : ∀ n : XNode, nodeOk n = true →
    ∀ t a c, n = XNode.elem t a c → RebuildP t (elemVal n) := by
  intro n
  induction n using xnode_ind with
  | ht s =>
    intro _ t a c heq
    exact absurd heq (by simp)
  | he t0 a0 c0 ihc =>
    intro hok t a c heq
    rw [XNode.elem.injEq] at heq
    obtain ⟨h1, h2, h3⟩ := heq
    subst h1
    subst h2
    subst h3
    have hok2 := hok
    rw [nodeOk] at hok2
    simp only [Bool.and_eq_true] at hok2
    obtain ⟨⟨ht, ha⟩, hcs⟩ := hok2
    have hpairs : ∀ q ∈ tagPairs c0, xmlNameOk q.1 = true ∧ RebuildP q.1 q.2 := by
      intro q hq
      obtain ⟨a', c', hmem, hqval⟩ := tagPairs_mem hq
      have hnok : nodeOk (XNode.elem q.1 a' c') = true := nodesOk_mem hcs hmem
      have hname : xmlNameOk q.1 = true := by
        rw [nodeOk] at hnok
        simp only [Bool.and_eq_true] at hnok
        exact hnok.1.1
      refine ⟨hname, ?_⟩
      rw [hqval]
      exact ihc (XNode.elem q.1 a' c') hmem hnok q.1 a' c' rfl
    have hitem0at : ∀ p ∈ a0.map (fun p => ("@" ++ p.1, XVal.text p.2)),
        strHasAtSign p.1 = true := by
      intro p hp
      obtain ⟨⟨x, w⟩, _, hpe⟩ := List.mem_map.mp hp
      rw [← hpe]
      exact atSign_append x
    have hsep : groupFold (a0.map (fun p => ("@" ++ p.1, XVal.text p.2)))
        (tagPairs c0) =
        a0.map (fun p => ("@" ++ p.1, XVal.text p.2)) ++
          groupFold [] (tagPairs c0) := by
      have := groupFold_skip_left (tagPairs c0)
        (a0.map (fun p => ("@" ++ p.1, XVal.text p.2))) [] ?_
      · simpa using this
      · intro q hq p hp hc
        have hat := hitem0at p hp
        have hnot := nameOk_not_atSign (hpairs q hq).1
        rw [hc] at hat
        rw [hat] at hnot
        exact Bool.noConfusion hnot
    have hTgood : TGood (groupFold [] (tagPairs c0)) :=
      tgood_groupFold (tagPairs c0) [] tgood_nil hpairs
    have htk : ∀ q ∈ groupFold [] (tagPairs c0), xmlNameOk q.1 = true :=
      fun q hq => (hTgood.2 q hq).1
    have hdisj0 : ∀ p ∈ a0.map (fun p => ("@" ++ p.1, XVal.text p.2)),
        ∀ q ∈ groupFold [] (tagPairs c0), p.1 ≠ q.1 := by
      intro p hp q hq hc
      have hat := hitem0at p hp
      have hnot := nameOk_not_atSign (htk q hq)
      rw [hc] at hat
      rw [hat] at hnot
      exact Bool.noConfusion hnot
    obtain ⟨ns, hnsok, hnselem, hnsemit, hnsrun⟩ :=
      emit_grouped (groupFold [] (tagPairs c0)) hTgood
    have hval : elemVal (XNode.elem t0 a0 c0) =
        buildVal (a0.map (fun p => ("@" ++ p.1, XVal.text p.2)) ++
          groupFold [] (tagPairs c0)) (pyStrip (textOf c0)) := by
      rw [elemVal_elem, hsep]
    rw [hval]
    by_cases hemp : (a0.map (fun p => ("@" ++ p.1, XVal.text p.2)) ++
        groupFold [] (tagPairs c0)).isEmpty = true
    · -- no attributes and no element children: None or text
      have hboth := List.append_eq_nil.mp (List.isEmpty_iff.mp hemp)
      have ha0nil : a0 = [] := List.map_eq_nil_iff.mp hboth.1
      by_cases hde : pyStrip (textOf c0) = ""
      · have hvb : buildVal (a0.map (fun p => ("@" ++ p.1, XVal.text p.2)) ++
            groupFold [] (tagPairs c0)) (pyStrip (textOf c0)) = XVal.null := by
          simp [buildVal, hemp, hde]
        rw [hvb]
        refine ⟨rfl, XNode.elem t0 [] [], rfl, rfl, ⟨[], [], rfl⟩, ?_⟩
        simp [nodeOk, attrsOk, nodesOk, ht]
      · have hvb : buildVal (a0.map (fun p => ("@" ++ p.1, XVal.text p.2)) ++
            groupFold [] (tagPairs c0)) (pyStrip (textOf c0)) =
            XVal.text (pyStrip (textOf c0)) := by
          simp [buildVal, hemp, hde]
        rw [hvb]
        refine ⟨rfl, XNode.elem t0 [] [XNode.text (pyStrip (textOf c0))], ?_, ?_,
          ⟨[], [XNode.text (pyStrip (textOf c0))], rfl⟩, ?_⟩
        · simp [emitOne, hde]
        · rw [elemVal_elem]
          have h1 : tagPairs [XNode.text (pyStrip (textOf c0))] = [] := rfl
          have h2 : textOf [XNode.text (pyStrip (textOf c0))] =
              pyStrip (textOf c0) := by
            rw [textOf, textOf, str_append_empty]
          rw [h1, h2, pyStrip_idem]
          simp [groupFold, buildVal, hde]
        · simp [nodeOk, attrsOk, nodesOk, ht]
    · -- attributes or element children present: a dict value
      have hhash : ∀ p ∈ a0.map (fun p => ("@" ++ p.1, XVal.text p.2)) ++
          groupFold [] (tagPairs c0), p.1 ≠ "#text" := by
        intro p hp
        rcases List.mem_append.mp hp with hp | hp
        · exact atSign_ne_hash (hitem0at p hp)
        · exact nameOk_ne_hash (htk p hp)
      by_cases hde : pyStrip (textOf c0) = ""
      · -- no character data: children are exactly the re-emitted entries
        have hvb : buildVal (a0.map (fun p => ("@" ++ p.1, XVal.text p.2)) ++
            groupFold [] (tagPairs c0)) (pyStrip (textOf c0)) =
            XVal.obj (a0.map (fun p => ("@" ++ p.1, XVal.text p.2)) ++
              groupFold [] (tagPairs c0)) := by
          simp [buildVal, hemp, hde]
        rw [hvb]
        refine ⟨rfl, XNode.elem t0 a0 ns, ?_, ?_, ⟨a0, ns, rfl⟩, ?_⟩
        · rw [emitOne]
          have hassoc : a0.map (fun p => ("@" ++ p.1, XVal.text p.2)) ++
              groupFold [] (tagPairs c0) =
              a0.map (fun p => ("@" ++ p.1, XVal.text p.2)) ++
                (groupFold [] (tagPairs c0) ++ []) := by simp
          rw [hassoc, attr_emit a0 [] ha (by simp) t0 [] none _]
          rw [List.nil_append]
          rw [hnsemit t0 a0 [] none []]
          simp [emitObj]
        · rw [elemVal]
          rw [hnsrun (a0.map (fun p => ("@" ++ p.1, XVal.text p.2))) "" hdisj0]
          dsimp only
          rw [pyStrip_empty]
          rw [if_neg hemp, if_pos rfl]
        · rw [nodeOk, ht, ha, hnsok]
          rfl
      · -- trailing character data entry
        have hpush : pushData (a0.map (fun p => ("@" ++ p.1, XVal.text p.2)) ++
            groupFold [] (tagPairs c0)) "#text" (XVal.text (pyStrip (textOf c0))) =
            (a0.map (fun p => ("@" ++ p.1, XVal.text p.2)) ++
              groupFold [] (tagPairs c0)) ++
              [("#text", XVal.text (pyStrip (textOf c0)))] :=
          pushData_notMem _ _ _ hhash
        have hvb : buildVal (a0.map (fun p => ("@" ++ p.1, XVal.text p.2)) ++
            groupFold [] (tagPairs c0)) (pyStrip (textOf c0)) =
            XVal.obj ((a0.map (fun p => ("@" ++ p.1, XVal.text p.2)) ++
              groupFold [] (tagPairs c0)) ++
              [("#text", XVal.text (pyStrip (textOf c0)))]) := by
          rw [buildVal, if_neg hemp, if_neg hde, hpush]
        rw [hvb]
        refine ⟨rfl, XNode.elem t0 a0 (ns ++ [XNode.text (pyStrip (textOf c0))]),
          ?_, ?_, ⟨a0, ns ++ [XNode.text (pyStrip (textOf c0))], rfl⟩, ?_⟩
        · rw [emitOne]
          have hassoc : (a0.map (fun p => ("@" ++ p.1, XVal.text p.2)) ++
              groupFold [] (tagPairs c0)) ++
              [("#text", XVal.text (pyStrip (textOf c0)))] =
              a0.map (fun p => ("@" ++ p.1, XVal.text p.2)) ++
                (groupFold [] (tagPairs c0) ++
                  [("#text", XVal.text (pyStrip (textOf c0)))]) := by simp
          rw [hassoc, attr_emit a0 [] ha (by simp) t0 [] none _]
          rw [List.nil_append]
          rw [hnsemit t0 a0 [] none [("#text", XVal.text (pyStrip (textOf c0)))]]
          simp [emitObj, hde]
        · rw [elemVal]
          rw [runChildren_append]
          rw [hnsrun (a0.map (fun p => ("@" ++ p.1, XVal.text p.2))) "" hdisj0]
          dsimp only [runChildren]
          rw [str_empty_append, pyStrip_idem]
          rw [if_neg hemp, if_neg hde, hpush]
        · rw [nodeOk, ht, ha]
          rw [nodesOk_append, hnsok]
          rfl

/-- Claim C6: for every document produced by the parser (the parse of any
well-formed XML document), serializing it and parsing the result returns the
same document: parse is a left inverse of serialize on the parser image. -/
theorem c6_roundtrip (t : String) (a : List (String × String)) (c : List XNode)
    (h : nodeOk (XNode.elem t a c) = true) :
    (parse_string (XmlText.doc t a c)).bind
      (fun d => (dict_to_xml d).bind parse_string) =
    parse_string (XmlText.doc t a c) := by
  obtain ⟨hnarr, n, hemit, hval, ⟨a2, c2, hn⟩, hnok⟩ :=
    rebuild_elem (XNode.elem t a c) h t a c rfl
  subst hn
  rw [parse_string, if_pos h]
  rcases hv : elemVal (XNode.elem t a c) with _ | s | es | vs
  · rw [hv] at hemit hval
    simp [Except.bind, dict_to_xml, hemit, parse_string, hnok, hval]
  · rw [hv] at hemit hval
    simp [Except.bind, dict_to_xml, hemit, parse_string, hnok, hval]
  · rw [hv] at hemit hval
    simp [Except.bind, dict_to_xml, hemit, parse_string, hnok, hval]
  · rw [hv] at hnarr
    simp [XVal.isArr] at hnarr

theorem c6_roundtrip_witness :
    (parse_string (XmlText.doc "Server" [("version", "8")]
      [XNode.elem "Bind" [] [], XNode.text "note", XNode.elem "Bind" [] []])).bind
      (fun d => (dict_to_xml d).bind parse_string) =
    parse_string (XmlText.doc "Server" [("version", "8")]
      [XNode.elem "Bind" [] [], XNode.text "note", XNode.elem "Bind" [] []]) :=
  c6_roundtrip "Server" [("version", "8")]
    [XNode.elem "Bind" [] [], XNode.text "note", XNode.elem "Bind" [] []]
    (by decide)

end OvenMediaUI
